import Mathlib

/-!
Verification development for the scribble-reader rendering engine.

Shallow embedding of the core data model and operations of the
illustrator crate (page cache, book metadata, chapter rendering and
pagination), the html tree builder, and the sculpter glyph printer.
Machine integers (u32, usize) are modelled as Nat; the one place where
usize wrap-around matters (an index subtraction in the tree builder) is
modelled with an explicit modulus.  f32 coordinates produced by the
third-party layout engine are modelled as exact rationals; the layout
engine itself, the font shaping library, the svg parser and rasterizer,
and the atlas rectangle allocator are third-party collaborators and are
modelled as oracle parameters.
-/

namespace Scribble

instance {ε α : Type} [DecidableEq ε] [DecidableEq α] : DecidableEq (Except ε α) :=
  fun a b =>
    match a, b with
    | .error e, .error f =>
      if h : e = f then .isTrue (by rw [h])
      else .isFalse (by intro hc; injection hc; contradiction)
    | .error _, .ok _ => .isFalse (by intro hc; exact Except.noConfusion hc)
    | .ok _, .error _ => .isFalse (by intro hc; exact Except.noConfusion hc)
    | .ok x, .ok y =>
      if h : x = y then .isTrue (by rw [h])
      else .isFalse (by intro hc; injection hc; contradiction)

/-- scribe::library::Location: (spine index, element index), both u32. -/
structure Location where
  spine : Nat
  element : Nat
  deriving DecidableEq, Repr

/-- Rust core::ops::Range over u32, written start..stop (Rust start..end). -/
structure NRange where
  start : Nat
  stop : Nat
  deriving DecidableEq, Repr

/-- Range::contains: start <= x && x < end (half open). -/
def NRange.containsE (r : NRange) (x : Nat) : Bool :=
  r.start ≤ x && x < r.stop

/-- bitflags PagePosition { First = 1, Last = 2 } as two booleans. -/
structure PagePosition where
  first : Bool
  last : Bool
  deriving DecidableEq, Repr

/-- PagePosition::First (only the First bit set). -/
def PagePosition.First : PagePosition := ⟨true, false⟩

/-- PagePosition::empty(). -/
def PagePosition.emptyFlags : PagePosition := ⟨false, false⟩

/-- flags.set(PagePosition::Last, true). -/
def PagePosition.setLast (p : PagePosition) : PagePosition := ⟨p.first, true⟩

/-- Text styles distinguished by RenderSettings::text_attrs. -/
inductive TextStyle where
  | body | bold | italic | h1 | h2 | h3 | h4 | h5
  deriving DecidableEq, Repr

/-- Element local names that the renderer inspects; every other tag acts
alike, collected into the single constructor other. -/
inductive ElName where
  | svg | p | b | strong | em | i | span | h1 | h2 | h3 | h4 | h5 | other
  deriving DecidableEq, Repr

/-- cosmic_text::Buffer as built by create_text: the grouped run of
same-styled strings handed to set_rich_text (shaping abstracted). -/
def TextBuffer := List (String × TextStyle)
  deriving DecidableEq, Repr

/-- usvg::Tree abstracted to what render_resource consumes: its size. -/
structure SvgTree where
  width : ℚ
  height : ℚ
  deriving DecidableEq, Repr

/-- DisplayContent: positioned text run or rasterized image.  The pixmap
raster (tiny_skia rendering) is abstracted to the svg tree and the scale
it was rendered at. -/
inductive DisplayContent where
  | text (buffer : TextBuffer)
  | pixmap (svg : SvgTree) (scale : ℚ)
  deriving DecidableEq, Repr

/-- DisplayItem: the f32 position/size pairs are kept as exact rationals
(the From conversions rounding f32 to u32 are absorbed here). -/
structure DisplayItem where
  posX : ℚ
  posY : ℚ
  sizeW : ℚ
  sizeH : ℚ
  content : DisplayContent
  deriving DecidableEq, Repr

/-- PageContent: flags, page index, covered element range, display items. -/
structure PageContent where
  position : PagePosition
  index : Nat
  elements : NRange
  items : List DisplayItem
  deriving DecidableEq, Repr

/-- PageCacheEntry: one chapter worth of rendered pages. -/
structure PageCacheEntry where
  spine : Nat
  elements : NRange
  pages : List PageContent
  deriving DecidableEq, Repr

/-- const CACHE_CHAPTERS: usize = 5. -/
def CACHE_CHAPTERS : Nat := 5

/-- PageContentCache: ring of CACHE_CHAPTERS optional entries plus the
running insertion index.  The fixed-size array is a list whose length is
CACHE_CHAPTERS for every cache the program ever builds. -/
structure PageContentCache where
  index : Nat
  entries : List (Option PageCacheEntry)
  deriving DecidableEq, Repr

/-- PageContentCache::default(). -/
def PageContentCache.default : PageContentCache :=
  ⟨0, List.replicate CACHE_CHAPTERS none⟩

/-- BookSpineItem: chapter index, resource id, element range. -/
structure BookSpineItem where
  index : Nat
  idref : String
  elements : NRange
  deriving DecidableEq, Repr

/-- BookMeta restricted to the field the navigation functions read. -/
structure BookMeta where
  spine : List BookSpineItem
  deriving DecidableEq, Repr

namespace PageContentCache

/-- self.entries.iter().flatten().find(|e| e.spine == loc.spine). -/
def findEntry (c : PageContentCache) (loc : Location) : Option PageCacheEntry :=
  (c.entries.reduceOption).find? (fun e => e.spine == loc.spine)

/-- PageContentCache::entry: find the entry for the spine index, then
resolve the element index to a page (first / last / containing). -/
def entry (c : PageContentCache) (loc : Location) :
    Option (PageCacheEntry × PageContent) := do
  let e ← c.findEntry loc
  if loc.element = e.elements.start then
    let p ← e.pages.head?
    pure (e, p)
  else if e.elements.stop ≤ loc.element then
    let p ← e.pages.getLast?
    pure (e, p)
  else
    let p ← e.pages.find? (fun p => p.elements.containsE loc.element)
    pure (e, p)

/-- PageContentCache::page. -/
def page (c : PageContentCache) (loc : Location) : Option PageContent :=
  (c.entry loc).map (fun x => x.2)

/-- PageContentCache::next_page.  The Rust function returns Location and
contains one .expect; the result none models that panic, every normal
return is some. -/
def next_page (c : PageContentCache) (book_meta : BookMeta) (loc : Location) :
    Option Location :=
  match c.entry loc with
  | none => some loc
  | some (e, p) =>
    if p.position.last then
      match book_meta.spine[e.spine + 1]? with
      | some item => some ⟨item.index, item.elements.start⟩
      | none => some loc -- End of book
    else
      match ((e.pages.find? (fun q => p.elements.start < q.elements.start)).orElse
          (fun _ => e.pages.getLast?)) with
      | some q => some ⟨e.spine, q.elements.start⟩
      | none => none -- expect: not last page but nothing after

/-- PageContentCache::previous_page.  Same conventions as next_page;
rfind is find? on the reversed page list; u32 saturating_sub is Nat
subtraction. -/
def previous_page (c : PageContentCache) (book_meta : BookMeta) (loc : Location) :
    Option Location :=
  match c.entry loc with
  | none => some loc
  | some (e, p) =>
    if p.position.first then
      match book_meta.spine[e.spine - 1]? with
      | some item => some ⟨item.index, item.elements.stop⟩
      | none => some loc -- Start of book
    else
      match (e.pages.reverse.find? (fun q => q.elements.start < p.elements.start)) with
      | some q => some ⟨e.spine, q.elements.start⟩
      | none => none -- expect: not first page but nothing before

/-- PageContentCache::is_cached. -/
def is_cached (c : PageContentCache) (spine_item : BookSpineItem) : Bool :=
  (c.entries.reduceOption).any (fun e => e.spine == spine_item.index)

/-- PageContentCache::insert: write slot index % CACHE_CHAPTERS, then
increment index. -/
def insert (c : PageContentCache) (spine_item : BookSpineItem)
    (pages : List PageContent) : PageContentCache :=
  { index := c.index + 1
    entries := c.entries.set (c.index % CACHE_CHAPTERS)
      (some ⟨spine_item.index, spine_item.elements, pages⟩) }

/-- PageContentCache::clear. -/
def clear (c : PageContentCache) : PageContentCache :=
  { c with entries := List.replicate CACHE_CHAPTERS none }

/-- Number of occupied slots. -/
def numEntries (c : PageContentCache) : Nat :=
  (c.entries.reduceOption).length

end PageContentCache

/-! ## Chapter parse trees and the render pass

html_parser::NodeTree is abstracted to what illustrator/src/lib.rs reads
from it: the total node count of the arena (node ids are dense, assigned
from 0 in creation order) and the body-rooted edge walk that body_iter
yields (None when no body element was recognized).  The renderer builds
a second, taffy render tree while consuming that walk and then walks the
render tree in document order; since render nodes are appended in
creation order, the construction and the later TaffyTreeIter walk are
fused here: building directly emits the render walk edges in the order
TaffyTreeIter would yield them. -/

/-- html_parser::EdgeRef for the body walk: open element, close element
(both carrying the arena node id and the local name), or a text run. -/
inductive HEdge where
  | openEl (id : Nat) (name : ElName)
  | closeEl (id : Nat) (name : ElName)
  | text (t : String)
  deriving DecidableEq, Repr

/-- Parsed chapter resource (html_parser::NodeTree abstraction). -/
structure NodeTree where
  nodeCount : Nat
  body : Option (List HEdge)
  deriving DecidableEq, Repr

/-- fn text_style(name: &LocalName) -> Option<TextStyle>. -/
def text_style : ElName → Option TextStyle
  | .b | .strong => some .bold
  | .i | .em => some .italic
  | .h1 => some .h1
  | .h2 => some .h2
  | .h3 => some .h3
  | .h4 => some .h4
  | .h5 => some .h5
  | _ => none

/-- fn is_inline(name: &LocalName) -> bool. -/
def is_inline : ElName → Bool
  | .strong | .b | .em | .i | .span => true
  | _ => false

/-- RenderSettings, restricted to the fields the pagination pass reads;
the cosmic_text attribute sets are abstracted away (they only influence
shaping, which is an oracle here). -/
structure RenderSettings where
  page_width : Nat
  page_height : Nat
  scale : ℚ
  padding_top_em : ℚ
  padding_left_em : ℚ
  padding_right_em : ℚ
  padding_bottom_em : ℚ
  padding_paragraph_em : ℚ
  font_size : ℚ
  deriving DecidableEq, Repr

namespace RenderSettings

/-- RenderSettings::em: body font size times device scale. -/
def em (s : RenderSettings) : ℚ := s.font_size * s.scale

/-- RenderSettings::page_height_padded. -/
def page_height_padded (s : RenderSettings) : ℚ :=
  (s.page_height : ℚ) - s.padding_top_em * s.em - s.padding_bottom_em * s.em

/-- RenderSettings::page_width_padded. -/
def page_width_padded (s : RenderSettings) : ℚ :=
  (s.page_width : ℚ) - s.padding_left_em * s.em - s.padding_right_em * s.em

end RenderSettings

/-- fn scale_to_fit(width, height, max_width, max_height) -> f32. -/
def scale_to_fit (width height max_width max_height : ℚ) : ℚ :=
  if width < max_width ∧ height < max_height then 1
  else min (max_width / width) (max_height / height)

/-- NodeContent of a render-tree leaf. -/
inductive NodeContent where
  | block
  | text
  | svgC (scale : ℚ)
  deriving DecidableEq, Repr

/-- NodeContext: originating element index plus content kind. -/
structure NodeContext where
  element : Nat
  content : NodeContent
  deriving DecidableEq, Repr

/-- One edge of the render-tree walk (crate::Edge over TaffyTreeIter);
open edges carry the node context so the pagination fold can read it. -/
inductive BEdge where
  | openE (id : Nat) (ctx : Option NodeContext)
  | closeE (id : Nat)
  deriving DecidableEq, Repr

/-- Token stream of the markup serialization read_svg builds (the string
formatting of write_begin_node / write_end_node is abstracted to
structured tokens). -/
inductive SvgTok where
  | beginEl (name : ElName)
  | endEl (name : ElName)
  | textTok (t : String)
  deriving DecidableEq, Repr

/-- create_text: the buffer holds the grouped same-style runs handed to
set_rich_text (metrics and attribute resolution abstracted). -/
def create_text (texts : List (String × TextStyle)) : TextBuffer := texts

/-- IllustratorRenderError (variants not seen by the claims collapsed). -/
inductive RenderError where
  | treeBuilder
  | zipError
  | taffyError
  | svgError
  | unexpectedExtraClose
  | missingBody
  | scaleSvgFailed
  deriving DecidableEq, Repr

/-- State of the render-tree construction loop in render_resource.  The
svgMode field is Some while the loop is inside read_svg, which consumes
and serializes edges from the shared iterator up to the close of the svg
element (svg element id, its name, serialized inner tokens so far). -/
structure BuildState where
  nextId : Nat
  edges : List BEdge
  stack : List Nat
  texts : List (String × TextStyle)
  textStyles : List (Nat × TextStyle)
  buffers : List (Nat × TextBuffer)
  svgs : List (Nat × SvgTree)
  svgMode : Option (Nat × ElName × List SvgTok)
  deriving DecidableEq, Repr

def BuildState.init : BuildState := ⟨0, [], [], [], [], [], [], none⟩

/-- Flush pending texts into a fresh text leaf with context element el
(the "if !texts.is_empty()" blocks of render_resource). -/
def BuildState.flushTexts (s : BuildState) (el : Nat) : BuildState :=
  if s.texts = [] then s
  else
    { s with
      nextId := s.nextId + 1
      edges := s.edges ++ [.openE s.nextId (some ⟨el, .text⟩), .closeE s.nextId]
      texts := []
      buffers := s.buffers ++ [(s.nextId, create_text s.texts)] }

/-- pop of the text_styles stack guarded by matching element id. -/
def BuildState.popStyle (s : BuildState) (id : Nat) : BuildState :=
  match s.textStyles with
  | (elId, _) :: rest => if elId = id then { s with textStyles := rest } else s
  | [] => s

/-- push a style if the element has one. -/
def BuildState.pushStyle (s : BuildState) (id : Nat) (name : ElName) : BuildState :=
  match text_style name with
  | some ts => { s with textStyles := (id, ts) :: s.textStyles }
  | none => s

/-- End of read_svg: close the serialization, parse it with usvg, size
and place the svg leaf (its layout Style carries size times
scale_to_fit). -/
def finishSvg (parseSvg : List SvgTok → Option SvgTree) (settings : RenderSettings)
    (s : BuildState) (elId : Nat) (elName : ElName) (toks : List SvgTok) :
    Except RenderError BuildState :=
  match parseSvg (.beginEl elName :: toks ++ [.endEl elName]) with
  | none => .error .svgError -- IllustratorSvgError propagated
  | some svg =>
    let scale := scale_to_fit svg.width svg.height
      settings.page_width_padded settings.page_height_padded
    .ok { s with
      svgMode := none
      nextId := s.nextId + 1
      edges := s.edges ++ [.openE s.nextId (some ⟨elId, .svgC scale⟩), .closeE s.nextId]
      svgs := s.svgs ++ [(s.nextId, svg)] }

/-- One edge of the while-let loop of render_resource.  While svgMode is
set, edges are consumed by the read_svg serialization loop (which breaks
only on the close of the svg element itself); otherwise they drive the
render-tree construction. -/
def buildStep (parseSvg : List SvgTok → Option SvgTree) (settings : RenderSettings)
    (s : BuildState) (e : HEdge) : Except RenderError BuildState :=
  match s.svgMode with
  | some (elId, elName, toks) =>
    match e with
    | .closeEl id name =>
      if id = elId then finishSvg parseSvg settings s elId elName toks
      else .ok { s with svgMode := some (elId, elName, toks ++ [.endEl name]) }
    | .openEl _ name =>
      .ok { s with svgMode := some (elId, elName, toks ++ [.beginEl name]) }
    | .text t =>
      .ok { s with svgMode := some (elId, elName, toks ++ [.textTok t]) }
  | none =>
    match e with
    | .openEl id name =>
      if name = .svg then
        .ok { s with svgMode := some (id, name, []) }
      else if is_inline name then
        .ok (s.pushStyle id name)
      else
        let s := s.pushStyle id name
        let s := s.flushTexts id
        .ok { s with
          nextId := s.nextId + 1
          edges := s.edges ++ [.openE s.nextId (some ⟨id, .block⟩)]
          stack := s.nextId :: s.stack }
    | .closeEl id name =>
      if is_inline name then
        .ok (s.popStyle id)
      else
        let s := s.popStyle id
        let s := s.flushTexts id
        match s.stack with
        | [] => .error .unexpectedExtraClose
        | b :: rest =>
          .ok { s with edges := s.edges ++ [.closeE b], stack := rest }
    | .text t =>
      let style := (s.textStyles.head?.map (fun x => x.2)).getD .body
      .ok { s with texts := s.texts ++ [(t, style)] }

/-- The whole while-let loop; a read_svg still open when the walk ends
closes its serialization and parses it, as the Rust loop does after the
shared iterator is exhausted. -/
def buildGo (parseSvg : List SvgTok → Option SvgTree) (settings : RenderSettings)
    (edges : List HEdge) (s0 : BuildState) : Except RenderError BuildState := do
  let s ← edges.foldlM (buildStep parseSvg settings) s0
  match s.svgMode with
  | some (elId, elName, toks) => finishSvg parseSvg settings s elId elName toks
  | none => .ok s

/-! ## The pagination pass -/

/-- taffy::Layout restricted to the fields the pagination pass reads;
computed layouts come from the third-party engine, so pagination is
parameterized over the layout assignment (render node id to layout). -/
structure LayoutRect where
  locX : ℚ
  locY : ℚ
  width : ℚ
  height : ℚ
  deriving DecidableEq, Repr

/-- HashMap::remove: the looked-up value (if present) and the map with
the binding removed. -/
def removeAssoc {α : Type} : List (Nat × α) → Nat → Option α × List (Nat × α)
  | [], _ => (none, [])
  | (k, v) :: rest, key =>
    if k = key then (some v, rest)
    else
      let (r, l) := removeAssoc rest key
      (r, (k, v) :: l)

/-- fn create_display_item: blocks yield nothing, text leaves take their
buffer out of the buffers map, svg leaves take their tree out of the
svgs map (the tiny_skia rasterization of the pixmap is abstracted to the
tree and its scale). -/
def create_display_item (buffers : List (Nat × TextBuffer))
    (svgs : List (Nat × SvgTree)) (id : Nat) (ctx : NodeContext) :
    Option DisplayContent × List (Nat × TextBuffer) × List (Nat × SvgTree) :=
  match ctx.content with
  | .block => (none, buffers, svgs)
  | .text =>
    let (b, buffers) := removeAssoc buffers id
    (b.map DisplayContent.text, buffers, svgs)
  | .svgC scale =>
    let (t, svgs) := removeAssoc svgs id
    (t.map (fun tree => DisplayContent.pixmap tree scale), buffers, svgs)

/-- State of the page-slicing fold in render_resource. -/
structure PState where
  page_end : ℚ
  offX : ℚ
  offY : ℚ
  pages : List PageContent
  page : PageContent
  buffers : List (Nat × TextBuffer)
  svgs : List (Nat × SvgTree)
  deriving DecidableEq, Repr

/-- One step of the pagination fold (the body of the for-edge loop). -/
def paginateStep (settings : RenderSettings) (layout : Nat → LayoutRect)
    (s : PState) (e : BEdge) : PState :=
  match e with
  | .closeE id =>
    { s with offX := s.offX - (layout id).locX, offY := s.offY - (layout id).locY }
  | .openE id ctx =>
    let l := layout id
    let offX := s.offX + l.locX
    let offY := s.offY + l.locY
    match ctx with
    | none => { s with offX := offX, offY := offY }
    | some ctx =>
      let page := { s.page with elements := ⟨s.page.elements.start, ctx.element⟩ }
      match create_display_item s.buffers s.svgs id ctx with
      | (none, buffers, svgs) =>
        { s with offX := offX, offY := offY, page := page,
                 buffers := buffers, svgs := svgs }
      | (some content, buffers, svgs) =>
        let content_end := offY + l.height
        if settings.page_height_padded < content_end - s.page_end then
          -- page break: push the page, pin the new page top to this run
          let item : DisplayItem :=
            ⟨settings.padding_left_em * settings.em + offX,
             settings.padding_top_em * settings.em + offY - offY,
             l.width, l.height, content⟩
          { page_end := offY, offX := offX, offY := offY,
            pages := s.pages ++ [page],
            page := ⟨.emptyFlags, page.index + 1,
                     ⟨page.elements.stop, page.elements.stop⟩, [item]⟩,
            buffers := buffers, svgs := svgs }
        else
          let item : DisplayItem :=
            ⟨settings.padding_left_em * settings.em + offX,
             settings.padding_top_em * settings.em + offY - s.page_end,
             l.width, l.height, content⟩
          { s with offX := offX, offY := offY,
                   page := { page with items := page.items ++ [item] },
                   buffers := buffers, svgs := svgs }

/-- last.position.set(Last, true) on the final element of the list. -/
def setLastOnLast : List PageContent → List PageContent
  | [] => []
  | [p] => [{ p with position := p.position.setLast }]
  | p :: q :: rest => p :: setLastOnLast (q :: rest)

/-- The epilogue after the edge loop: push the open page if it has items
or nothing was pushed yet, otherwise flag the already-pushed last page. -/
def paginateFinish (s : PState) : List PageContent :=
  if s.page.items ≠ [] ∨ s.pages = [] then
    s.pages ++ [{ s.page with position := s.page.position.setLast }]
  else setLastOnLast s.pages

/-- The whole page-slicing pass over the render-tree walk. -/
def paginate (settings : RenderSettings) (layout : Nat → LayoutRect)
    (edges : List BEdge) (buffers : List (Nat × TextBuffer))
    (svgs : List (Nat × SvgTree)) : List PageContent :=
  paginateFinish (edges.foldl (paginateStep settings layout)
    ⟨0, 0, 0, [], ⟨.First, 0, ⟨0, 0⟩, []⟩, buffers, svgs⟩)

/-- fn render_resource.  read is the chapter fetch (archive.by_path plus
builder.read_from), whose io and parse failures surface as errors.  The
returned builder is dropped from the model (it carries no page state). -/
def render_resource (parseSvg : List SvgTok → Option SvgTree)
    (settings : RenderSettings) (layout : Nat → LayoutRect)
    (read : Except RenderError NodeTree) : Except RenderError (List PageContent) := do
  let node_tree ← read
  match node_tree.body with
  | none => .error .missingBody
  | some walk => do
    let s ← buildGo parseSvg settings walk .init
    -- blocks still open at the end of the walk are closed by the
    -- document-order walk of the built tree
    let edges := s.edges ++ s.stack.map BEdge.closeE
    pure (paginate settings layout edges s.buffers s.svgs)

/-! ## BookMeta::create -/

/-- The for-loop of BookMeta::create over the enumerated spine: each
spine item resolves its resource, parses it, and pushes
BookSpineItem { index, idref, elements: 0..node_count }. -/
def createSpineGo (readTree : String → Option NodeTree) :
    Nat → List String → Except String (List BookSpineItem)
  | _, [] => .ok []
  | index, idref :: rest =>
    match readTree idref with
    | none => .error idref -- IllustratorError::MissingResource
    | some tree =>
      match createSpineGo readTree (index + 1) rest with
      | .error e => .error e
      | .ok items => .ok (⟨index, idref, ⟨0, tree.nodeCount⟩⟩ :: items)

/-- BookMeta::create, restricted to the spine construction.  readTree
combines the resource lookup and builder.read_from; none stands for
IllustratorError::MissingResource (read failures folded in). -/
def BookMeta.create (spineIds : List String)
    (readTree : String → Option NodeTree) : Except String BookMeta :=
  match createSpineGo readTree 0 spineIds with
  | .error e => .error e
  | .ok items => .ok ⟨items⟩

/-! ## assure_cached and the worker loop -/

/-- fn assure_cached: serve from the cache when the chapter is present,
otherwise render the resource and insert the produced pages.  Any render
error propagates before the cache is touched. -/
def assure_cached (cache : PageContentCache) (item : BookSpineItem)
    (parseSvg : List SvgTok → Option SvgTree) (settings : RenderSettings)
    (layout : Nat → LayoutRect) (read : Except RenderError NodeTree) :
    Except RenderError PageContentCache :=
  if cache.is_cached item then .ok cache
  else do
    let pages ← render_resource parseSvg settings layout read
    .ok (cache.insert item pages)

/-- The render arm of the worker loop in spawn_illustrator (the
TryRecvError::Empty branch): assure_cached with the ? operator, then the
location is saved and content_ready fires.  An error return models the
worker thread returning Err, which ends the loop and terminates the
thread; an ok return carries the updated cache and the notified
location. -/
def workerRenderStep (cache : PageContentCache) (item : BookSpineItem)
    (parseSvg : List SvgTok → Option SvgTree) (settings : RenderSettings)
    (layout : Nat → LayoutRect) (read : Except RenderError NodeTree)
    (current_loc : Location) : Except RenderError (PageContentCache × Location) :=
  match assure_cached cache item parseSvg settings layout read with
  | .error e => .error e
  | .ok c => .ok (c, current_loc)

/-! ## html_parser::NodeTreeBuilder

The builder wraps a taffy arena whose node contexts are Element or Text
nodes.  The arena is a list indexed by dense node ids; taffy operations
that return Result are modelled with the same failure conditions
(child_at_index / insert_child_at_index out of bounds, remove_child of a
non-child).  usize arithmetic wraps modulo 2^64 as in a release build. -/

/-- html_parser::TextStyle. -/
inductive HtmlTextStyle where
  | body | h1 | h2
  deriving DecidableEq, Repr

/-- html_parser::Node: the context stored on content-bearing arena
nodes.  Comment and processing-instruction nodes carry no context. -/
inductive HNode where
  | element (name : ElName)
  | textN (style : HtmlTextStyle) (t : String)
  deriving DecidableEq, Repr

/-- Node::get_style. -/
def nodeGetStyle : HNode → HtmlTextStyle
  | .element name =>
    match name with
    | .h1 => .h1
    | .h2 => .h2
    | _ => .body
  | .textN s _ => s

/-- One slot of the taffy arena. -/
structure HNodeData where
  ctx : Option HNode
  parent : Option Nat
  children : List Nat
  deriving DecidableEq, Repr

/-- The taffy arena inside NodeTreeBuilder. -/
structure HTree where
  nodes : List HNodeData
  deriving DecidableEq, Repr

/-- html_parser::TreeBuilderError (Io and Taffy collapsed to one
constructor each). -/
inductive TreeBuilderError where
  | ioError
  | taffyError
  | siblingHasNoParent
  deriving DecidableEq, Repr

/-- html5ever NodeOrText. -/
inductive HNodeOrText where
  | appendNode (id : Nat)
  | appendText (t : String)
  deriving DecidableEq, Repr

def USIZE_MOD : Nat := 2 ^ 64

namespace HTree

/-- TaffyTree::parent. -/
def parentOf (t : HTree) (id : Nat) : Option Nat :=
  (t.nodes[id]?).bind (fun n => n.parent)

/-- TaffyTree::children (Err on an unknown node). -/
def childrenOf (t : HTree) (id : Nat) : Except TreeBuilderError (List Nat) :=
  match t.nodes[id]? with
  | some n => .ok n.children
  | none => .error .taffyError

/-- TaffyTree::child_at_index. -/
def child_at_index (t : HTree) (id idx : Nat) : Except TreeBuilderError Nat := do
  let cs ← t.childrenOf id
  match cs[idx]? with
  | some c => .ok c
  | none => .error .taffyError

/-- TaffyTree::get_node_context. -/
def contextOf (t : HTree) (id : Nat) : Option HNode :=
  (t.nodes[id]?).bind (fun n => n.ctx)

/-- Replace one arena slot. -/
def modifyNode (t : HTree) (id : Nat) (f : HNodeData → HNodeData) : HTree :=
  match t.nodes[id]? with
  | some n => ⟨t.nodes.set id (f n)⟩
  | none => t

/-- Overwrite the context of a node (get_node_context_mut then write). -/
def setContext (t : HTree) (id : Nat) (c : HNode) : HTree :=
  t.modifyNode id (fun n => { n with ctx := some c })

/-- TaffyTree::remove_child (Err when child is not a child of parent). -/
def remove_child (t : HTree) (parent child : Nat) :
    Except TreeBuilderError HTree :=
  match t.nodes[parent]? with
  | none => .error .taffyError
  | some n =>
    if child ∈ n.children then
      .ok ((t.modifyNode parent (fun m => { m with children := m.children.erase child })).modifyNode
        child (fun m => { m with parent := none }))
    else .error .taffyError

/-- TaffyTree::insert_child_at_index (Err when the index exceeds the
child count). -/
def insert_child_at_index (t : HTree) (parent idx child : Nat) :
    Except TreeBuilderError HTree :=
  match t.nodes[parent]? with
  | none => .error .taffyError
  | some n =>
    if n.children.length < idx then .error .taffyError
    else
      .ok ((t.modifyNode parent (fun m => { m with children := m.children.insertIdx idx child })).modifyNode
        child (fun m => { m with parent := some parent }))

/-- TaffyTree::new_leaf_with_context: append a fresh node. -/
def new_leaf_with_context (t : HTree) (c : HNode) : HTree × Nat :=
  (⟨t.nodes ++ [⟨some c, none, []⟩]⟩, t.nodes.length)

/-- Arena coherence: recorded parents exist and list the node among
their children.  Holds for every tree the builder constructs. -/
def WF (t : HTree) : Prop :=
  ∀ (id : Nat) (n : HNodeData) (p : Nat), t.nodes[id]? = some n → n.parent = some p →
    ∃ np, t.nodes[p]? = some np ∧ id ∈ np.children

end HTree

/-- Iterator::position on the child list. -/
def listPosition (x : Nat) : List Nat → Option Nat
  | [] => none
  | c :: rest => if c = x then some 0 else (listPosition x rest).map (fun i => i + 1)

theorem listPosition_lt_length (x : Nat) (l : List Nat) (hm : x ∈ l) :
    ∃ i, listPosition x l = some i ∧ i < l.length := by
  induction l with
  | nil => simp at hm
  | cons c rest ih =>
    by_cases hc : c = x
    · exact ⟨0, by simp [listPosition, hc], by simp⟩
    · have hm2 : x ∈ rest := by
        cases hm with
        | head => exact absurd rfl hc
        | tail _ h => exact h
      obtain ⟨i, hi, hlt⟩ := ih hm2
      exact ⟨i + 1, by simp [listPosition, hc, hi], by simp; omega⟩

/-- NodeTreeBuilder::append_before_sibling_safe.  The usize subtraction
sibling_index - 1 wraps modulo 2^64 (release-build semantics; with debug
overflow checks the same input would trap before the bounds check). -/
def append_before_sibling_safe (t : HTree) (sibling : Nat)
    (new_node : HNodeOrText) : Except TreeBuilderError HTree :=
  match t.parentOf sibling with
  | none => .error .siblingHasNoParent
  | some parent =>
    match t.childrenOf parent with
    | .error e => .error e
    | .ok children =>
      let sibling_index := (listPosition sibling children).getD 0
      match new_node with
      | .appendNode node =>
        match
          (match t.parentOf node with
           | some old_parent => t.remove_child old_parent node
           | none => Except.ok t) with
        | .error e => .error e
        | .ok t1 => t1.insert_child_at_index parent sibling_index node
      | .appendText txt =>
        if txt.trim.isEmpty then Except.ok t
        else
          match (t.child_at_index parent
              ((sibling_index + (USIZE_MOD - 1)) % USIZE_MOD)).toOption.bind
              (fun node => (t.contextOf node).map (fun c => (node, c))) with
          | some (node, .textN style prev) =>
            Except.ok (t.setContext node (.textN style (prev ++ txt)))
          | _ =>
            let style := ((t.contextOf parent).map nodeGetStyle).getD .body
            let (t2, node) := t.new_leaf_with_context (.textN style txt)
            t2.insert_child_at_index parent sibling_index node

/-! Arena update helper lemmas for the tree builder. -/

theorem modifyNode_getElem?_ne (t : HTree) (j : Nat) (f : HNodeData → HNodeData)
    (i : Nat) (hne : j ≠ i) : (t.modifyNode j f).nodes[i]? = t.nodes[i]? := by
  unfold HTree.modifyNode
  cases hj : t.nodes[j]? with
  | none => rfl
  | some n => simp [List.getElem?_set_ne hne]

theorem modifyNode_getElem?_self (t : HTree) (j : Nat) (f : HNodeData → HNodeData)
    (n : HNodeData) (h : t.nodes[j]? = some n) :
    (t.modifyNode j f).nodes[j]? = some (f n) := by
  unfold HTree.modifyNode
  rw [h]
  have hlt : j < t.nodes.length := (List.getElem?_eq_some.mp h).1
  simp [List.getElem?_set_self hlt]

theorem insert_child_ok (t : HTree) (par idx child : Nat) (np : HNodeData)
    (h : t.nodes[par]? = some np) (hle : idx ≤ np.children.length) :
    ∃ t2, t.insert_child_at_index par idx child = .ok t2 := by
  unfold HTree.insert_child_at_index
  rw [h]
  exact ⟨_, if_neg (by omega)⟩

theorem remove_child_ok (t : HTree) (op node : Nat) (nop : HNodeData)
    (h : t.nodes[op]? = some nop) (hm : node ∈ nop.children) :
    t.remove_child op node =
      .ok ((t.modifyNode op (fun m => { m with children := m.children.erase node })).modifyNode
        node (fun m => { m with parent := none })) := by
  unfold HTree.remove_child
  rw [h]
  exact if_pos hm

theorem remove_result_parent_children (t : HTree) (op node par : Nat)
    (np : HNodeData) (hpar : t.nodes[par]? = some np) :
    ∃ np2, ((t.modifyNode op (fun m => { m with children := m.children.erase node })).modifyNode
        node (fun m => { m with parent := none })).nodes[par]? = some np2 ∧
      (np2.children = np.children ∨ np2.children = np.children.erase node) := by
  by_cases hop : op = par
  · subst hop
    have h1 : (t.modifyNode op (fun m => { m with children := m.children.erase node })).nodes[op]? =
        some { np with children := np.children.erase node } :=
      modifyNode_getElem?_self t op _ np hpar
    by_cases hn : node = op
    · subst hn
      exact ⟨_, modifyNode_getElem?_self _ node _ _ h1, Or.inr rfl⟩
    · refine ⟨{ np with children := np.children.erase node }, ?_, Or.inr rfl⟩
      rw [modifyNode_getElem?_ne _ node _ op hn]
      exact h1
  · have h1 : (t.modifyNode op (fun m => { m with children := m.children.erase node })).nodes[par]? =
        some np := by
      rw [modifyNode_getElem?_ne _ op _ par hop]; exact hpar
    by_cases hn : node = par
    · subst hn
      exact ⟨_, modifyNode_getElem?_self _ node _ _ h1, Or.inl rfl⟩
    · refine ⟨np, ?_, Or.inl rfl⟩
      rw [modifyNode_getElem?_ne _ node _ par hn]
      exact h1

/-- C7: on every coherent tree state and every input, the insert-before
-sibling primitive is total: when the sibling has no recorded parent it
returns the SiblingHasNoParent error (which the TreeSink callback layer
merely logs), and in every other case — including inserting text before
a sibling that is the first child of its parent, where the usize
index subtraction wraps and the preceding-child lookup simply misses —
it returns Ok.  No panicking operation is reachable (the model is total;
the wrapped index is rejected by the bounds-checked child_at_index). -/
theorem append_before_sibling_total (t : HTree) (sibling : Nat)
    (nt : HNodeOrText) (hwf : t.WF) :
    (t.parentOf sibling = none →
      append_before_sibling_safe t sibling nt = .error .siblingHasNoParent) ∧
    (∀ par, t.parentOf sibling = some par →
      ∃ t2, append_before_sibling_safe t sibling nt = .ok t2) := by
  constructor
  · intro h
    unfold append_before_sibling_safe
    rw [h]
  · intro par hp
    have hps := hp
    unfold HTree.parentOf at hps
    cases hn : t.nodes[sibling]? with
    | none => rw [hn] at hps; simp at hps
    | some n =>
      rw [hn] at hps
      simp only [Option.some_bind] at hps
      obtain ⟨np, hnpg, hmem⟩ := hwf sibling n par hn hps
      have hch : t.childrenOf par = .ok np.children := by
        unfold HTree.childrenOf; rw [hnpg]
      obtain ⟨i, hposi, hilt⟩ := listPosition_lt_length sibling np.children hmem
      cases nt with
      | appendNode node =>
        cases hpn : t.parentOf node with
        | none =>
          simp only [append_before_sibling_safe, hp, hch, hpn, hposi, Option.getD_some]
          exact insert_child_ok t par i node np hnpg (le_of_lt hilt)
        | some op =>
          have hpn2 := hpn
          unfold HTree.parentOf at hpn2
          cases hm : t.nodes[node]? with
          | none => rw [hm] at hpn2; simp at hpn2
          | some m =>
            rw [hm] at hpn2
            simp only [Option.some_bind] at hpn2
            obtain ⟨nop, hnopg, hnodemem⟩ := hwf node m op hm hpn2
            simp only [append_before_sibling_safe, hp, hch, hpn, hposi, Option.getD_some,
              remove_child_ok t op node nop hnopg hnodemem]
            obtain ⟨np2, hnp2, hch2⟩ :=
              remove_result_parent_children t op node par np hnpg
            refine insert_child_ok _ par i node np2 hnp2 ?_
            cases hch2 with
            | inl hsame => rw [hsame]; exact le_of_lt hilt
            | inr herase =>
              rw [herase]
              by_cases hmm : node ∈ np.children
              · rw [List.length_erase_of_mem hmm]; omega
              · rw [List.erase_of_not_mem hmm]; exact le_of_lt hilt
      | appendText txt =>
        by_cases htr : txt.trim.isEmpty = true
        · simp only [append_before_sibling_safe, hp, hch, htr, if_true]
          exact ⟨t, rfl⟩
        · cases hci : (t.child_at_index par
              (((listPosition sibling np.children).getD 0 + (USIZE_MOD - 1)) % USIZE_MOD)).toOption.bind
              (fun node => (t.contextOf node).map (fun c => (node, c))) with
          | none =>
            simp only [append_before_sibling_safe, hp, hch, htr, if_false, hposi,
              Option.getD_some, HTree.new_leaf_with_context]
            rw [hposi] at hci
            simp only [Option.getD_some] at hci
            rw [hci]
            have hplt : par < t.nodes.length := (List.getElem?_eq_some.mp hnpg).1
            have happ : (⟨t.nodes ++ [⟨some (.textN (((t.contextOf par).map nodeGetStyle).getD .body) txt),
                none, []⟩]⟩ : HTree).nodes[par]? = some np := by
              show (t.nodes ++ _)[par]? = some np
              rw [List.getElem?_append_left hplt]
              exact hnpg
            exact insert_child_ok _ par i t.nodes.length np happ (le_of_lt hilt)
          | some pair =>
            obtain ⟨node, c⟩ := pair
            cases c with
            | textN style prev =>
              simp only [append_before_sibling_safe, hp, hch, htr, if_false, hposi,
                Option.getD_some]
              rw [hposi] at hci
              simp only [Option.getD_some] at hci
              rw [hci]
              exact ⟨_, rfl⟩
            | element name =>
              simp only [append_before_sibling_safe, hp, hch, htr, if_false, hposi,
                Option.getD_some, HTree.new_leaf_with_context]
              rw [hposi] at hci
              simp only [Option.getD_some] at hci
              rw [hci]
              have hplt : par < t.nodes.length := (List.getElem?_eq_some.mp hnpg).1
              have happ : (⟨t.nodes ++ [⟨some (.textN (((t.contextOf par).map nodeGetStyle).getD .body) txt),
                  none, []⟩]⟩ : HTree).nodes[par]? = some np := by
                show (t.nodes ++ _)[par]? = some np
                rw [List.getElem?_append_left hplt]
                exact hnpg
              exact insert_child_ok _ par i t.nodes.length np happ (le_of_lt hilt)

/-- A two-node tree: element 0 is the parent of element 1, which is the
first (and only) child. -/
def t7 : HTree :=
  ⟨[⟨some (.element .p), none, [1]⟩, ⟨some (.element .span), some 0, []⟩]⟩

theorem t7_wf : t7.WF := by
  intro id n p h1 h2
  have hlt := (List.getElem?_eq_some.mp h1).1
  have hlt2 : id < 2 := by simpa [t7] using hlt
  interval_cases id
  · simp only [t7, List.getElem?_cons_zero, Option.some.injEq] at h1
    rw [← h1] at h2
    simp at h2
  · simp only [t7, List.getElem?_cons_succ, List.getElem?_cons_zero,
      Option.some.injEq] at h1
    rw [← h1] at h2
    simp only [Option.some.injEq] at h2
    exact ⟨⟨some (.element .p), none, [1]⟩, by rw [← h2]; rfl, by simp⟩

/-- C7 witness: a sibling with no parent reports SiblingHasNoParent,
and appending text before the first child of its parent (the wrapped
index case) completes with Ok. -/
theorem append_before_sibling_total_witness :
    (append_before_sibling_safe t7 0 (.appendText "x") =
      .error .siblingHasNoParent) ∧
    (∃ t2, append_before_sibling_safe t7 1 (.appendText "x") = .ok t2) :=
  ⟨(append_before_sibling_total t7 0 (.appendText "x") t7_wf).1 rfl,
    (append_before_sibling_total t7 1 (.appendText "x") t7_wf).2 0 rfl⟩

/-! ## sculpter::printer::SculpturePrinter

Fixed-point I26F6 values are modelled as exact rationals (the claims do
not depend on the 1/64 quantization).  The ab_glyph font functions and
the etagere bucketed allocator are third-party and enter as an oracle
record; the allocator state is an abstract value threaded through the
oracle calls.  Performed rasterizations and atlas allocations are
recorded in an explicit event trace. -/

/-- etagere::Size. -/
structure AtlasSize where
  width : Int
  height : Int
  deriving DecidableEq, Repr

/-- etagere::Allocation restricted to its rectangle (min corner, size). -/
structure AllocRect where
  x : Int
  y : Int
  w : Int
  h : Int
  deriving DecidableEq, Repr

/-- Abstract etagere::BucketedAtlasAllocator state: its current size
plus an opaque component evolved by the oracle. -/
structure AllocState where
  size : AtlasSize
  seed : Nat
  deriving DecidableEq, Repr

/-- ab_glyph::OutlinedGlyph abstracted to its pixel bounds and the
sequence of coverage writes its draw callback performs; the third pixel
component is the alpha byte 255 - U0F8(c.min(1)).to_bits the printer
stores. -/
structure Outline where
  width : Int
  height : Int
  pixels : List (Nat × Nat × Nat)
  deriving DecidableEq, Repr

/-- The third-party surface used by the printer. -/
structure FontApi where
  pt_to_px_scale : Nat → ℚ → Option ℚ
  outline_glyph : Nat → Nat → ℚ → Option Outline
  allocate : AllocState → AtlasSize → Option (AllocRect × AllocState)
  grow : AllocState → AtlasSize → AllocState

/-- printer::GlyphIdent: (face, glyph id, font size). -/
structure GlyphIdent where
  face_ref : Nat
  glyph_id : Nat
  size : ℚ
  deriving DecidableEq, Repr

/-- shaper::GlyphPlan with its GlyphPosition. -/
structure GlyphPlanM where
  face_ref : Nat
  glyph_id : Nat
  x_advance : ℚ
  y_advance : ℚ
  x_offset : ℚ
  y_offset : ℚ
  deriving DecidableEq, Repr

/-- printer::DisplayGlyph. -/
structure DisplayGlyph where
  posX : ℚ
  posY : ℚ
  sizeW : ℚ
  sizeH : ℚ
  uvX : ℚ
  uvY : ℚ
  uvW : ℚ
  uvH : ℚ
  deriving DecidableEq, Repr

/-- SculpturePrinter state. -/
structure SculpturePrinter where
  scale_factor : ℚ
  numFonts : Nat
  allocator : AllocState
  glyph_map : List (GlyphIdent × AllocRect × Outline)
  need_texture_refresh : Bool
  max_texture_2d : AtlasSize
  deriving DecidableEq, Repr

/-- SculpturePrinterError (variants relevant here). -/
inductive SPError where
  | fontSizeOutsideRange
  | outlineMissing
  | growAtlasFailed
  | resizeAtlasTextureFailed
  deriving DecidableEq, Repr

/-- Observable glyph-pipeline effects. -/
inductive PrintEvent where
  | rasterize (i : GlyphIdent)
  | allocate (i : GlyphIdent)
  deriving DecidableEq, Repr

/-- BTreeMap::get on the glyph map. -/
def lookupGlyph (m : List (GlyphIdent × AllocRect × Outline)) (i : GlyphIdent) :
    Option (AllocRect × Outline) :=
  (m.find? (fun e => e.1 == i)).map (fun e => e.2)

/-- const INITIAL_SIZE: u32 = 1024. -/
def INITIAL_SIZE : Int := 1024

namespace SculpturePrinter

/-- The allocate-or-grow-and-retry sequence of alloc_glyph: grow the
atlas by INITIAL_SIZE capped componentwise at the maximum texture size
when the first allocation fails. -/
def allocAttempt (api : FontApi) (s : SculpturePrinter) (size : AtlasSize) :
    Option (AllocRect × AllocState) :=
  match api.allocate s.allocator size with
  | some r => some r
  | none =>
    api.allocate (api.grow s.allocator
      ⟨min (s.allocator.size.width + INITIAL_SIZE) s.max_texture_2d.width,
       min (s.allocator.size.height + INITIAL_SIZE) s.max_texture_2d.height⟩) size

/-- SculpturePrinter::alloc_glyph: rasterize the outline, allocate an
atlas rectangle (growing the atlas when full), mark the texture dirty,
record the glyph. -/
def alloc_glyph (api : FontApi) (s : SculpturePrinter) (font_size : ℚ)
    (glyph : GlyphPlanM) (ident : GlyphIdent) :
    Except SPError (AllocRect × SculpturePrinter × List PrintEvent) :=
  match api.pt_to_px_scale glyph.face_ref (s.scale_factor * font_size) with
  | none => .error .fontSizeOutsideRange
  | some scale =>
    match api.outline_glyph glyph.face_ref glyph.glyph_id scale with
    | none => .error .outlineMissing
    | some outline =>
      match allocAttempt api s ⟨outline.width, outline.height⟩ with
      | none => .error .growAtlasFailed
      | some (alloc, a2) =>
        .ok (alloc,
          { s with
            allocator := a2
            need_texture_refresh := true
            glyph_map := s.glyph_map ++ [(ident, alloc, outline)] },
          [.rasterize ident, .allocate ident])

/-- Running state of the print_lines loops. -/
structure PrintLoop where
  x_pos : ℚ
  y_pos : ℚ
  printer : SculpturePrinter
  output : List DisplayGlyph
  trace : List PrintEvent

/-- The per-glyph body of the print_lines inner loop. -/
def printGlyph (api : FontApi) (font_size : ℚ) (st : PrintLoop)
    (glyph : GlyphPlanM) : Except SPError PrintLoop := do
  let ident : GlyphIdent := ⟨glyph.face_ref, glyph.glyph_id, font_size⟩
  let (alloc, printer, ev) ←
    match lookupGlyph st.printer.glyph_map ident with
    | some (alloc, _) => Except.ok (alloc, st.printer, ([] : List PrintEvent))
    | none => alloc_glyph api st.printer font_size glyph ident
  let x := st.x_pos + glyph.x_offset
  let y := st.y_pos + glyph.y_offset
  let w := glyph.x_advance
  let h := glyph.y_advance
  let g : DisplayGlyph := ⟨x, y, w, h, (alloc.x : ℚ), (alloc.y : ℚ), (alloc.w : ℚ), (alloc.h : ℚ)⟩
  pure { st with x_pos := x + w, printer := printer,
                 output := st.output ++ [g], trace := st.trace ++ ev }

/-- The per-line body: all glyphs of the line, then advance y_pos. -/
def printLine (api : FontApi) (font_size line_adv : ℚ) (st : PrintLoop)
    (line : List GlyphPlanM) : Except SPError PrintLoop := do
  let st ← line.foldlM (printGlyph api font_size) st
  pure { st with y_pos := st.y_pos + line_adv }

/-- SculpturePrinter::print_lines.  Lines are their glyph slices; the
result carries the output glyphs, the updated printer and the trace of
rasterizations/allocations performed. -/
def print_lines (api : FontApi) (s : SculpturePrinter)
    (font_size line_height_em : ℚ) (lines : List (List GlyphPlanM)) :
    Except SPError (List DisplayGlyph × SculpturePrinter × List PrintEvent) := do
  let px_per_pt := s.scale_factor * 96 / 72
  let line_adv := font_size * line_height_em * px_per_pt
  let st ← lines.foldlM (printLine api font_size line_adv)
    (⟨0, 0, s, [], []⟩ : PrintLoop)
  pure (st.output, st.printer, st.trace)

end SculpturePrinter

/-- image::GrayAlphaImage: dimensions plus row-major two-channel bytes. -/
structure GAImage where
  width : Nat
  height : Nat
  data : List Nat
  deriving DecidableEq, Repr

/-- Vec::resize(new_len, 0). -/
def resizeList (data : List Nat) (new_len : Nat) : List Nat :=
  data.take new_len ++ List.replicate (new_len - data.length) 0

theorem resizeList_length (data : List Nat) (n : Nat) :
    (resizeList data n).length = n := by
  simp only [resizeList, List.length_append, List.length_take, List.length_replicate]
  omega

/-- GrayAlphaImage::from_raw: accepts exactly matching buffer lengths. -/
def imageFromRaw (w h : Nat) (data : List Nat) : Option GAImage :=
  if data.length = 2 * (w * h) then some ⟨w, h, data⟩ else none

/-- ImageBuffer::put_pixel of LumaA([l, a]). -/
def putPixel (img : GAImage) (x y l a : Nat) : GAImage :=
  let idx := 2 * (y * img.width + x)
  { img with data := (img.data.set idx l).set (idx + 1) a }

/-- outline.draw: replay the recorded coverage writes at the rectangle
corner. -/
def drawOutline (img : GAImage) (x0 y0 : Nat) (o : Outline) : GAImage :=
  o.pixels.foldl (fun im px => putPixel im (x0 + px.1) (y0 + px.2.1) 0 px.2.2) img

/-- SculpturePrinter::update_glyph_atlas: when the dirty flag is set,
resize the buffer to the current atlas size if needed and redraw every
packed glyph; otherwise hand the input back.  The receiver is shared
immutably (&self), so the flag cannot be cleared here. -/
def SculpturePrinter.update_glyph_atlas (s : SculpturePrinter) (image : GAImage) :
    Except SPError GAImage := do
  if s.need_texture_refresh then
    let atlas_width := s.allocator.size.width.toNat
    let atlas_height := s.allocator.size.height.toNat
    let image ←
      if image.width ≠ atlas_width ∨ image.height ≠ atlas_height then
        let new_len := 2 * (atlas_width * atlas_height)
        match imageFromRaw atlas_width atlas_height (resizeList image.data new_len) with
        | some i => Except.ok i
        | none => Except.error .resizeAtlasTextureFailed
      else Except.ok image
    Except.ok (s.glyph_map.foldl
      (fun im e => drawOutline im e.2.1.x.toNat e.2.1.y.toNat e.2.2) image)
  else Except.ok image

/-! ## C8: glyph caching in print_lines -/

/-- The (face, glyph id, size) triples requested by a print_lines call,
in order. -/
def lineIdents (font_size : ℚ) : List (List GlyphPlanM) → List GlyphIdent
  | [] => []
  | l :: rest => l.map (fun g => ⟨g.face_ref, g.glyph_id, font_size⟩) ++
      lineIdents font_size rest

theorem lookupGlyph_append (m : List (GlyphIdent × AllocRect × Outline))
    (i j : GlyphIdent) (a : AllocRect) (o : Outline) :
    lookupGlyph (m ++ [(i, a, o)]) j =
      match lookupGlyph m j with
      | some v => some v
      | none => if i == j then some (a, o) else none := by
  induction m with
  | nil =>
    cases hij : (i == j) with
    | true => simp [lookupGlyph, List.find?, hij]
    | false => simp [lookupGlyph, List.find?, hij]
  | cons e rest ih =>
    cases he : (e.1 == j) with
    | true => simp [lookupGlyph, List.find?, he]
    | false =>
      simp only [lookupGlyph, List.cons_append, List.find?, he] at *
      exact ih

/-- alloc_glyph, when it succeeds, appends exactly the requested ident
to the glyph map, marks the texture dirty, and reports one
rasterization and one allocation. -/
theorem alloc_glyph_ok_elim (api : FontApi) (s : SculpturePrinter)
    (font_size : ℚ) (g : GlyphPlanM) (ident : GlyphIdent) (a : AllocRect)
    (s2 : SculpturePrinter) (ev : List PrintEvent)
    (h : SculpturePrinter.alloc_glyph api s font_size g ident = .ok (a, s2, ev)) :
    (∃ o, s2.glyph_map = s.glyph_map ++ [(ident, a, o)]) ∧
      ev = [.rasterize ident, .allocate ident] ∧
      s2.need_texture_refresh = true := by
  unfold SculpturePrinter.alloc_glyph at h
  cases h1 : api.pt_to_px_scale g.face_ref (s.scale_factor * font_size) with
  | none => simp only [h1] at h; exact Except.noConfusion h
  | some scale =>
    simp only [h1] at h
    cases h2 : api.outline_glyph g.face_ref g.glyph_id scale with
    | none => simp only [h2] at h; exact Except.noConfusion h
    | some outline =>
      simp only [h2] at h
      cases h3 : SculpturePrinter.allocAttempt api s ⟨outline.width, outline.height⟩ with
      | none => simp only [h3] at h; exact Except.noConfusion h
      | some r =>
        obtain ⟨alloc, a3⟩ := r
        simp only [h3, Except.ok.injEq, Prod.mk.injEq] at h
        obtain ⟨rfl, rfl, rfl⟩ := h
        exact ⟨⟨outline, rfl⟩, rfl, rfl⟩

/-- Invariant carried through the print_lines loops: relative to the
entry state s0 and the idents processed so far, already-cached glyphs
have produced no events and keep their entry, newly packed glyphs have
produced exactly one rasterization and one allocation and are now in
the map, and unseen glyphs have produced nothing. -/
def PrintInv (s0 : SculpturePrinter) (st : SculpturePrinter.PrintLoop)
    (processed : List GlyphIdent) : Prop :=
  ∀ ident : GlyphIdent,
    (lookupGlyph s0.glyph_map ident ≠ none →
      st.trace.count (.rasterize ident) = 0 ∧ st.trace.count (.allocate ident) = 0 ∧
      lookupGlyph st.printer.glyph_map ident = lookupGlyph s0.glyph_map ident) ∧
    (lookupGlyph s0.glyph_map ident = none → ident ∈ processed →
      st.trace.count (.rasterize ident) = 1 ∧ st.trace.count (.allocate ident) = 1 ∧
      (lookupGlyph st.printer.glyph_map ident).isSome = true) ∧
    (lookupGlyph s0.glyph_map ident = none → ident ∉ processed →
      st.trace.count (.rasterize ident) = 0 ∧ st.trace.count (.allocate ident) = 0 ∧
      lookupGlyph st.printer.glyph_map ident = none)

theorem printGlyph_inv (api : FontApi) (font_size : ℚ) (s0 : SculpturePrinter)
    (st st2 : SculpturePrinter.PrintLoop) (g : GlyphPlanM)
    (processed : List GlyphIdent)
    (h : SculpturePrinter.printGlyph api font_size st g = .ok st2)
    (hinv : PrintInv s0 st processed) :
    PrintInv s0 st2 (processed ++ [⟨g.face_ref, g.glyph_id, font_size⟩]) := by
  unfold SculpturePrinter.printGlyph at h
  cases hl : lookupGlyph st.printer.glyph_map ⟨g.face_ref, g.glyph_id, font_size⟩ with
  | some pr =>
    obtain ⟨alloc, o⟩ := pr
    simp only [hl] at h
    replace h := Except.ok.inj h
    subst h
    intro ident
    have hi := hinv ident
    refine ⟨fun hs => ?_, fun hn hm => ?_, fun hn hm => ?_⟩
    · simpa using hi.1 hs
    · rcases List.mem_append.mp hm with hm1 | hm2
      · simpa using hi.2.1 hn hm1
      · have hg : ident = ⟨g.face_ref, g.glyph_id, font_size⟩ := by simpa using hm2
        subst hg
        have hmem : (⟨g.face_ref, g.glyph_id, font_size⟩ : GlyphIdent) ∈ processed := by
          by_contra hno
          have h22 := (hi.2.2 hn hno).2.2
          rw [h22] at hl
          exact Option.noConfusion hl
        simpa using hi.2.1 hn hmem
    · have hm1 : ident ∉ processed := fun hc => hm (List.mem_append.mpr (Or.inl hc))
      simpa using hi.2.2 hn hm1
  | none =>
    simp only [hl] at h
    cases ha : SculpturePrinter.alloc_glyph api st.printer font_size g
        ⟨g.face_ref, g.glyph_id, font_size⟩ with
    | error e => rw [ha] at h; exact Except.noConfusion h
    | ok res =>
      obtain ⟨alloc, p2, ev⟩ := res
      rw [ha] at h
      replace h := Except.ok.inj h
      subst h
      obtain ⟨⟨o, hmap⟩, hev, _⟩ :=
        alloc_glyph_ok_elim api st.printer font_size g _ alloc p2 ev ha
      subst hev
      intro ident
      have hi := hinv ident
      by_cases hg : ident = (⟨g.face_ref, g.glyph_id, font_size⟩ : GlyphIdent)
      · subst hg
        refine ⟨fun hs => ?_, fun hn hm => ?_, fun hn hm => ?_⟩
        · have h1 := (hi.1 hs).2.2
          rw [hl] at h1
          exact absurd h1.symm hs
        · have hno : (⟨g.face_ref, g.glyph_id, font_size⟩ : GlyphIdent) ∉ processed := by
            intro hc
            have h22 := (hi.2.1 hn hc).2.2
            rw [hl] at h22
            simp at h22
          have h3 := hi.2.2 hn hno
          refine ⟨?_, ?_, ?_⟩
          · simp [List.count_append, h3.1, List.count_cons]
          · simp [List.count_append, h3.2.1, List.count_cons]
          · simp [hmap, lookupGlyph_append, h3.2.2]
        · exact absurd (List.mem_append.mpr (Or.inr (by simp))) hm
      · refine ⟨fun hs => ?_, fun hn hm => ?_, fun hn hm => ?_⟩
        · have h1 := hi.1 hs
          refine ⟨?_, ?_, ?_⟩
          · simp [List.count_append, h1.1, List.count_cons, Ne.symm hg]
          · simp [List.count_append, h1.2.1, List.count_cons, Ne.symm hg]
          · rw [hmap, lookupGlyph_append, h1.2.2]
            cases hs0 : lookupGlyph s0.glyph_map ident with
            | none => exact absurd hs0 hs
            | some v => rfl
        · have hm1 : ident ∈ processed := by
            rcases List.mem_append.mp hm with h1 | h2
            · exact h1
            · exact absurd (by simpa using h2) hg
          have h2 := hi.2.1 hn hm1
          refine ⟨?_, ?_, ?_⟩
          · simp [List.count_append, h2.1, List.count_cons, Ne.symm hg]
          · simp [List.count_append, h2.2.1, List.count_cons, Ne.symm hg]
          · rw [hmap, lookupGlyph_append]
            cases hcur : lookupGlyph st.printer.glyph_map ident with
            | none => rw [hcur] at h2; simp at h2
            | some v => simp
        · have hm1 : ident ∉ processed := fun hc => hm (List.mem_append.mpr (Or.inl hc))
          have h3 := hi.2.2 hn hm1
          refine ⟨?_, ?_, ?_⟩
          · simp [List.count_append, h3.1, List.count_cons, Ne.symm hg]
          · simp [List.count_append, h3.2.1, List.count_cons, Ne.symm hg]
          · rw [hmap, lookupGlyph_append, h3.2.2]
            simp [Ne.symm hg]

theorem foldl_glyphs_inv (api : FontApi) (font_size : ℚ) (s0 : SculpturePrinter) :
    ∀ (gs : List GlyphPlanM) (st st2 : SculpturePrinter.PrintLoop)
      (processed : List GlyphIdent),
      gs.foldlM (SculpturePrinter.printGlyph api font_size) st = .ok st2 →
      PrintInv s0 st processed →
      PrintInv s0 st2
        (processed ++ gs.map (fun g => ⟨g.face_ref, g.glyph_id, font_size⟩)) := by
  intro gs
  induction gs with
  | nil =>
    intro st st2 processed h hinv
    simp only [List.foldlM_nil] at h
    replace h := Except.ok.inj h
    subst h
    simpa using hinv
  | cons g gs ih =>
    intro st st2 processed h hinv
    rw [List.foldlM_cons] at h
    cases hg : SculpturePrinter.printGlyph api font_size st g with
    | error e => rw [hg] at h; exact Except.noConfusion h
    | ok st1 =>
      rw [hg] at h
      have hinv1 := printGlyph_inv api font_size s0 st st1 g processed hg hinv
      have := ih st1 st2 (processed ++ [⟨g.face_ref, g.glyph_id, font_size⟩]) h hinv1
      simpa [List.append_assoc] using this

theorem printLine_inv (api : FontApi) (font_size line_adv : ℚ)
    (s0 : SculpturePrinter) (st st2 : SculpturePrinter.PrintLoop)
    (line : List GlyphPlanM) (processed : List GlyphIdent)
    (h : SculpturePrinter.printLine api font_size line_adv st line = .ok st2)
    (hinv : PrintInv s0 st processed) :
    PrintInv s0 st2
      (processed ++ line.map (fun g => ⟨g.face_ref, g.glyph_id, font_size⟩)) := by
  unfold SculpturePrinter.printLine at h
  cases hf : line.foldlM (SculpturePrinter.printGlyph api font_size) st with
  | error e => rw [hf] at h; exact Except.noConfusion h
  | ok st1 =>
    rw [hf] at h
    replace h := Except.ok.inj h
    subst h
    exact foldl_glyphs_inv api font_size s0 line st st1 processed hf hinv

theorem foldl_lines_inv (api : FontApi) (font_size line_adv : ℚ)
    (s0 : SculpturePrinter) :
    ∀ (lines : List (List GlyphPlanM)) (st st2 : SculpturePrinter.PrintLoop)
      (processed : List GlyphIdent),
      lines.foldlM (SculpturePrinter.printLine api font_size line_adv) st = .ok st2 →
      PrintInv s0 st processed →
      PrintInv s0 st2 (processed ++ lineIdents font_size lines) := by
  intro lines
  induction lines with
  | nil =>
    intro st st2 processed h hinv
    simp only [List.foldlM_nil] at h
    replace h := Except.ok.inj h
    subst h
    simpa [lineIdents] using hinv
  | cons line rest ih =>
    intro st st2 processed h hinv
    rw [List.foldlM_cons] at h
    cases hg : SculpturePrinter.printLine api font_size line_adv st line with
    | error e => rw [hg] at h; exact Except.noConfusion h
    | ok st1 =>
      rw [hg] at h
      have hinv1 := printLine_inv api font_size line_adv s0 st st1 line processed hg hinv
      have := ih st1 st2 (processed ++ line.map (fun g => ⟨g.face_ref, g.glyph_id, font_size⟩))
        h hinv1
      simpa [lineIdents, List.append_assoc] using this

/-- C8: for every (face, glyph id, font size) triple, a print_lines call
that includes the triple for the first time performs exactly one
rasterization and one atlas allocation for it and leaves it in the glyph
map; a triple already in the glyph map causes no rasterization and no
allocation at all and its map entry is untouched, so every later request
is served by the map lookup alone. -/
theorem print_lines_glyph_caching (api : FontApi) (s : SculpturePrinter)
    (font_size line_height_em : ℚ) (lines : List (List GlyphPlanM))
    (out : List DisplayGlyph) (s2 : SculpturePrinter) (tr : List PrintEvent)
    (h : SculpturePrinter.print_lines api s font_size line_height_em lines =
      .ok (out, s2, tr)) :
    ∀ ident : GlyphIdent,
      (lookupGlyph s.glyph_map ident ≠ none →
        tr.count (.rasterize ident) = 0 ∧ tr.count (.allocate ident) = 0 ∧
        lookupGlyph s2.glyph_map ident = lookupGlyph s.glyph_map ident) ∧
      (lookupGlyph s.glyph_map ident = none → ident ∈ lineIdents font_size lines →
        tr.count (.rasterize ident) = 1 ∧ tr.count (.allocate ident) = 1 ∧
        (lookupGlyph s2.glyph_map ident).isSome = true) := by
  unfold SculpturePrinter.print_lines at h
  simp only [] at h
  cases hf : lines.foldlM
      (SculpturePrinter.printLine api font_size
        (font_size * line_height_em * (s.scale_factor * 96 / 72)))
      (⟨0, 0, s, [], []⟩ : SculpturePrinter.PrintLoop) with
  | error e => rw [hf] at h; exact Except.noConfusion h
  | ok stf =>
    rw [hf] at h
    replace h := Except.ok.inj h
    simp only [Prod.mk.injEq] at h
    obtain ⟨rfl, rfl, rfl⟩ := h
    have hinv0 : PrintInv s (⟨0, 0, s, [], []⟩ : SculpturePrinter.PrintLoop) [] := by
      intro ident
      refine ⟨fun hs => ⟨rfl, rfl, rfl⟩, fun hn hm => absurd hm (by simp),
        fun hn hm => ⟨rfl, rfl, hn⟩⟩
    have hfin := foldl_lines_inv api font_size
      (font_size * line_height_em * (s.scale_factor * 96 / 72)) s lines
      (⟨0, 0, s, [], []⟩ : SculpturePrinter.PrintLoop) stf [] hf hinv0
    intro ident
    rw [List.nil_append] at hfin
    exact ⟨(hfin ident).1, (hfin ident).2.1⟩

/-- Oracle fonts/allocator used by the concrete print_lines examples. -/
def api8 : FontApi :=
  ⟨fun _ q => some q, fun _ _ _ => some ⟨2, 2, []⟩,
   fun a sz => some (⟨0, 0, sz.width, sz.height⟩, a), fun a _ => a⟩

def s8 : SculpturePrinter := ⟨1, 1, ⟨⟨1024, 1024⟩, 0⟩, [], false, ⟨4096, 4096⟩⟩

def g8 : GlyphPlanM := ⟨0, 7, 1, 0, 0, 0⟩

def s8out : SculpturePrinter :=
  ⟨1, 1, ⟨⟨1024, 1024⟩, 0⟩, [(⟨0, 7, 1⟩, ⟨0, 0, 2, 2⟩, ⟨2, 2, []⟩)], true,
   ⟨4096, 4096⟩⟩

/-- C8 witness: requesting the same glyph twice in one call performs
exactly one rasterization and one allocation and records the glyph;
requesting it again from the resulting printer performs none. -/
theorem print_lines_glyph_caching_witness :
    (([PrintEvent.rasterize ⟨0, 7, 1⟩, PrintEvent.allocate ⟨0, 7, 1⟩] :
        List PrintEvent).count (.rasterize ⟨0, 7, 1⟩) = 1 ∧
      ([PrintEvent.rasterize ⟨0, 7, 1⟩, PrintEvent.allocate ⟨0, 7, 1⟩] :
        List PrintEvent).count (.allocate ⟨0, 7, 1⟩) = 1 ∧
      (lookupGlyph s8out.glyph_map ⟨0, 7, 1⟩).isSome = true) ∧
    (([] : List PrintEvent).count (.rasterize ⟨0, 7, 1⟩) = 0 ∧
      ([] : List PrintEvent).count (.allocate ⟨0, 7, 1⟩) = 0 ∧
      lookupGlyph s8out.glyph_map ⟨0, 7, 1⟩ = lookupGlyph s8out.glyph_map ⟨0, 7, 1⟩) :=
  ⟨(print_lines_glyph_caching api8 s8 1 1 [[g8, g8]]
      [⟨0, 0, 1, 0, 0, 0, 2, 2⟩, ⟨1, 0, 1, 0, 0, 0, 2, 2⟩] s8out
      [.rasterize ⟨0, 7, 1⟩, .allocate ⟨0, 7, 1⟩] (by with_unfolding_all rfl) ⟨0, 7, 1⟩).2
      (by decide) (by decide),
    (print_lines_glyph_caching api8 s8out 1 1 [[g8]]
      [⟨0, 0, 1, 0, 0, 0, 2, 2⟩] s8out [] (by with_unfolding_all rfl) ⟨0, 7, 1⟩).1
      (by decide)⟩

/-! ## C1: shape of the page list produced by one render -/

/-- Exactly the head of the list carries the First flag. -/
def onlyHeadFirstP : List PagePosition → Bool
  | [] => true
  | p :: rest => p.first && rest.all (fun q => q.first == false)

/-- Exactly the last element carries the Last flag. -/
def onlyLastLastP : List PagePosition → Bool
  | [] => true
  | [p] => p.last
  | p :: q :: rest => (p.last == false) && onlyLastLastP (q :: rest)

theorem onlyLastLastP_append (l : List PagePosition) (p : PagePosition) :
    onlyLastLastP (l ++ [p]) = (l.all (fun q => q.last == false) && p.last) := by
  induction l with
  | nil => simp [onlyLastLastP]
  | cons a l ih =>
    cases l with
    | nil => simp [onlyLastLastP]
    | cons b l2 =>
      simp only [List.cons_append] at ih ⊢
      simp only [onlyLastLastP, ih, List.all_cons]
      simp [Bool.and_assoc]

/-- The invariant of the pagination fold: the open page and the pushed
pages carry exactly one First flag (on the head) and no Last flag, their
element ranges are contiguous, and the head range starts at 0. -/
def PaginateInv (st : PState) : Prop :=
  ((st.pages ++ [st.page]).map (fun p => p.position) =
    PagePosition.First :: List.replicate st.pages.length PagePosition.emptyFlags) ∧
  List.Chain' (fun a b : NRange => a.stop = b.start)
    ((st.pages ++ [st.page]).map (fun p => p.elements)) ∧
  ((st.pages ++ [st.page]).map (fun p => p.elements.start)).head? = some 0

theorem chain_last_stop_free (rs : List NRange) (a b c : Nat)
    (h : List.Chain' (fun a b : NRange => a.stop = b.start) (rs ++ [⟨a, b⟩])) :
    List.Chain' (fun a b : NRange => a.stop = b.start) (rs ++ [⟨a, c⟩]) := by
  rw [List.chain'_append] at h ⊢
  exact ⟨h.1, List.chain'_singleton _, by
    intro x hx y hy
    simp only [List.head?_cons, Option.mem_def, Option.some.injEq] at hy
    subst hy
    exact h.2.2 x hx ⟨a, b⟩ (by simp)⟩

theorem chain_snoc (rs : List NRange) (r : NRange)
    (h : List.Chain' (fun a b : NRange => a.stop = b.start) rs)
    (h2 : ∀ x ∈ rs.getLast?, x.stop = r.start) :
    List.Chain' (fun a b : NRange => a.stop = b.start) (rs ++ [r]) := by
  rw [List.chain'_append]
  exact ⟨h, List.chain'_singleton _, by
    intro x hx y hy
    simp only [List.head?_cons, Option.mem_def, Option.some.injEq] at hy
    subst hy
    exact h2 x hx⟩

theorem paginateStep_inv (settings : RenderSettings) (layout : Nat → LayoutRect)
    (st : PState) (e : BEdge) (h : PaginateInv st) :
    PaginateInv (paginateStep settings layout st e) := by
  obtain ⟨hflags, hchain, hhead⟩ := h
  cases e with
  | closeE id => exact ⟨hflags, hchain, hhead⟩
  | openE id ctx =>
    cases ctx with
    | none => exact ⟨hflags, hchain, hhead⟩
    | some c =>
      rcases hcd : create_display_item st.buffers st.svgs id c with ⟨oc, b2, s2⟩
      have helems : ∀ x : ℚ, True := fun _ => trivial
      cases oc with
      | none =>
        simp only [paginateStep, hcd]
        refine ⟨?_, ?_, ?_⟩
        · simpa using hflags
        · simp only [List.map_append, List.map_cons, List.map_nil] at hchain ⊢
          exact chain_last_stop_free _ _ _ _ hchain
        · simpa using hhead
      | some content =>
        by_cases hbr : settings.page_height_padded <
            st.offY + (layout id).locY + (layout id).height - st.page_end
        · simp only [paginateStep, hcd, hbr, if_pos]
          refine ⟨?_, ?_, ?_⟩
          · simp only [List.map_append, List.map_cons, List.map_nil,
              List.length_append, List.length_cons, List.length_nil] at hflags ⊢
            rw [hflags, List.replicate_succ']
            simp
          · simp only [List.map_append, List.map_cons, List.map_nil] at hchain ⊢
            have hc2 := chain_last_stop_free _ _ _ c.element hchain
            refine chain_snoc _ _ hc2 ?_
            intro x hx
            rw [List.getLast?_concat] at hx
            simp only [Option.mem_def, Option.some.injEq] at hx
            subst hx
            rfl
          · simp only [List.map_append, List.map_cons, List.map_nil] at hhead ⊢
            cases hp : st.pages with
            | nil => simpa [hp] using hhead
            | cons q rest => simpa [hp] using hhead
        · simp only [paginateStep, hcd, hbr, if_neg, if_false]
          refine ⟨?_, ?_, ?_⟩
          · simpa using hflags
          · simp only [List.map_append, List.map_cons, List.map_nil] at hchain ⊢
            exact chain_last_stop_free _ _ _ _ hchain
          · simpa using hhead

/-- setLastOnLast on the bare flag list. -/
def setLastOnLastP : List PagePosition → List PagePosition
  | [] => []
  | [p] => [p.setLast]
  | p :: q :: rest => p :: setLastOnLastP (q :: rest)

theorem setLastOnLast_map_position : ∀ l : List PageContent,
    (setLastOnLast l).map (fun p => p.position) =
      setLastOnLastP (l.map (fun p => p.position))
  | [] => rfl
  | [p] => rfl
  | p :: q :: rest => by
    simp only [setLastOnLast, setLastOnLastP, List.map_cons]
    rw [show (setLastOnLast (q :: rest)).map (fun p => p.position) =
      setLastOnLastP ((q :: rest).map (fun p => p.position)) from
      setLastOnLast_map_position (q :: rest)]
    simp [setLastOnLastP]

theorem setLastOnLast_map_elements : ∀ l : List PageContent,
    (setLastOnLast l).map (fun p => p.elements) = l.map (fun p => p.elements)
  | [] => rfl
  | [p] => rfl
  | p :: q :: rest => by
    simp only [setLastOnLast, List.map_cons]
    rw [show (setLastOnLast (q :: rest)).map (fun p => p.elements) =
      (q :: rest).map (fun p => p.elements) from setLastOnLast_map_elements (q :: rest)]
    simp

theorem setLastOnLast_ne_nil (l : List PageContent) (h : l ≠ []) :
    setLastOnLast l ≠ [] := by
  cases l with
  | nil => exact absurd rfl h
  | cons p rest => cases rest <;> simp [setLastOnLast]

theorem setLastOnLastP_first_all (xs : List PagePosition) :
    (setLastOnLastP xs).map (fun p => p.first) = xs.map (fun p => p.first) := by
  match xs with
  | [] => rfl
  | [p] => rfl
  | p :: q :: rest =>
    simp only [setLastOnLastP, List.map_cons]
    rw [show (setLastOnLastP (q :: rest)).map (fun p => p.first) =
      (q :: rest).map (fun p => p.first) from setLastOnLastP_first_all (q :: rest)]
    simp

theorem onlyHeadFirstP_of_first_map (xs ys : List PagePosition)
    (hm : xs.map (fun p => p.first) = ys.map (fun p => p.first))
    (h : onlyHeadFirstP ys = true) : onlyHeadFirstP xs = true := by
  induction xs generalizing ys with
  | nil => rfl
  | cons x xs ih =>
    cases ys with
    | nil => simp at hm
    | cons y ys =>
      simp only [List.map_cons, List.cons.injEq] at hm
      simp only [onlyHeadFirstP, Bool.and_eq_true, List.all_eq_true] at h ⊢
      refine ⟨hm.1.trans h.1, ?_⟩
      intro q hq
      have hqf : q.first ∈ ys.map (fun p => p.first) := by
        rw [← hm.2]
        exact List.mem_map_of_mem _ hq
      obtain ⟨y2, hy2, hy2f⟩ := List.mem_map.mp hqf
      have h2 := h.2 y2 hy2
      simp only [beq_iff_eq] at h2 ⊢
      exact hy2f ▸ h2

theorem setLastOnLastP_last (xs : List PagePosition) (hne : xs ≠ [])
    (hall : ∀ x ∈ xs, x.last = false) :
    onlyLastLastP (setLastOnLastP xs) = true := by
  match xs with
  | [] => exact absurd rfl hne
  | [p] => simp [setLastOnLastP, onlyLastLastP, PagePosition.setLast]
  | p :: q :: rest =>
    have hrest := setLastOnLastP_last (q :: rest) (by simp)
      (fun x hx => hall x (List.mem_cons_of_mem p hx))
    have hstruct : ∃ z zs, setLastOnLastP (q :: rest) = z :: zs := by
      match rest with
      | [] => exact ⟨q.setLast, [], rfl⟩
      | r :: rest2 => exact ⟨q, setLastOnLastP (r :: rest2), rfl⟩
    obtain ⟨z, zs, hz⟩ := hstruct
    simp only [setLastOnLastP, hz, onlyLastLastP, Bool.and_eq_true, beq_iff_eq]
    exact ⟨hall p (by simp), by rw [← hz]; exact hrest⟩

theorem paginateFinish_props (st : PState) (h : PaginateInv st) :
    paginateFinish st ≠ [] ∧
    ((paginateFinish st).map (fun p => p.elements.start)).head? = some 0 ∧
    List.Chain' (fun a b : NRange => a.stop = b.start)
      ((paginateFinish st).map (fun p => p.elements)) ∧
    onlyHeadFirstP ((paginateFinish st).map (fun p => p.position)) = true ∧
    onlyLastLastP ((paginateFinish st).map (fun p => p.position)) = true := by
  obtain ⟨hflags, hchain, hhead⟩ := h
  have hall_last : ∀ x ∈ (st.pages ++ [st.page]).map (fun p => p.position),
      x.last = false := by
    intro x hx
    rw [hflags] at hx
    rcases List.mem_cons.mp hx with h1 | h2
    · subst h1; rfl
    · rw [List.eq_of_mem_replicate h2]; rfl
  unfold paginateFinish
  by_cases hc : st.page.items ≠ [] ∨ st.pages = []
  · rw [if_pos hc]
    refine ⟨by simp, ?_, ?_, ?_, ?_⟩
    · cases hp : st.pages with
      | nil => simpa [hp] using hhead
      | cons q rest => simpa [hp] using hhead
    · simpa using hchain
    · apply onlyHeadFirstP_of_first_map _
        (PagePosition.First :: List.replicate st.pages.length PagePosition.emptyFlags)
      · have hmf := congrArg (List.map (fun p : PagePosition => p.first)) hflags
        simp only [List.map_append, List.map_cons, List.map_nil, List.map_map] at hmf ⊢
        convert hmf using 2
      · simp only [onlyHeadFirstP, PagePosition.First, Bool.and_eq_true, List.all_eq_true]
        refine ⟨trivial, ?_⟩
        intro x hx
        rw [List.eq_of_mem_replicate hx]
        rfl
    · rw [List.map_append, List.map_cons, List.map_nil, onlyLastLastP_append]
      rw [Bool.and_eq_true]
      refine ⟨?_, rfl⟩
      rw [List.all_eq_true]
      intro x hx
      have hxl : x.last = false := hall_last x (by
        rw [List.map_append]
        exact List.mem_append_left _ hx)
      rw [hxl]
      rfl
  · rw [if_neg hc]
    push_neg at hc
    obtain ⟨hitems, hpne⟩ := hc
    refine ⟨setLastOnLast_ne_nil _ hpne, ?_, ?_, ?_, ?_⟩
    · have he := congrArg (List.map (fun r : NRange => r.start))
        (setLastOnLast_map_elements st.pages)
      simp only [List.map_map] at he
      have hgoal : (setLastOnLast st.pages).map (fun p => p.elements.start) =
          st.pages.map (fun p => p.elements.start) := he
      rw [hgoal]
      cases hp : st.pages with
      | nil => exact absurd hp hpne
      | cons q rest => simpa [hp] using hhead
    · rw [setLastOnLast_map_elements]
      have hch2 : List.Chain' (fun a b : NRange => a.stop = b.start)
          (st.pages.map (fun p => p.elements) ++ [st.page.elements]) := by
        simpa using hchain
      exact (List.chain'_append.mp hch2).1
    · rw [setLastOnLast_map_position]
      apply onlyHeadFirstP_of_first_map _ (st.pages.map (fun p => p.position))
      · exact setLastOnLastP_first_all _
      · cases hp : st.pages with
        | nil => exact absurd hp hpne
        | cons q rest =>
          rw [hp] at hflags
          simp only [List.map_cons, List.cons_append, List.cons.injEq,
            List.length_cons] at hflags
          obtain ⟨hq, hrest⟩ := hflags
          simp only [List.map_cons, onlyHeadFirstP, hq, Bool.and_eq_true,
            List.all_eq_true]
          refine ⟨rfl, ?_⟩
          intro x hx
          have hxr : x ∈ List.replicate (rest.length + 1)
              PagePosition.emptyFlags := by
            rw [← hrest, List.map_append]
            exact List.mem_append_left _ hx
          rw [List.eq_of_mem_replicate hxr]
          rfl
    · rw [setLastOnLast_map_position]
      apply setLastOnLastP_last
      · cases hp : st.pages with
        | nil => exact absurd hp hpne
        | cons q rest => simp
      · intro x hx
        exact hall_last x (by
          rw [List.map_append]
          exact List.mem_append_left _ hx)

theorem paginate_fold_inv (settings : RenderSettings) (layout : Nat → LayoutRect) :
    ∀ (edges : List BEdge) (st : PState), PaginateInv st →
      PaginateInv (edges.foldl (paginateStep settings layout) st) := by
  intro edges
  induction edges with
  | nil => intro st h; exact h
  | cons e rest ih =>
    intro st h
    rw [List.foldl_cons]
    exact ih _ (paginateStep_inv settings layout st e h)

theorem paginate_pages_shape (settings : RenderSettings) (layout : Nat → LayoutRect)
    (edges : List BEdge) (buffers : List (Nat × TextBuffer))
    (svgs : List (Nat × SvgTree)) :
    paginate settings layout edges buffers svgs ≠ [] ∧
    ((paginate settings layout edges buffers svgs).map
      (fun p => p.elements.start)).head? = some 0 ∧
    List.Chain' (fun a b : NRange => a.stop = b.start)
      ((paginate settings layout edges buffers svgs).map (fun p => p.elements)) ∧
    onlyHeadFirstP ((paginate settings layout edges buffers svgs).map
      (fun p => p.position)) = true ∧
    onlyLastLastP ((paginate settings layout edges buffers svgs).map
      (fun p => p.position)) = true := by
  have hinv0 : PaginateInv
      (⟨0, 0, 0, [], ⟨.First, 0, ⟨0, 0⟩, []⟩, buffers, svgs⟩ : PState) := by
    refine ⟨rfl, ?_, rfl⟩
    simp
  unfold paginate
  exact paginateFinish_props _ (paginate_fold_inv settings layout edges _ hinv0)

theorem paginateStep_nocontent (settings : RenderSettings) (layout : Nat → LayoutRect)
    (st : PState) (e : BEdge) (h1 : st.pages = []) (h2 : st.page.items = [])
    (h3 : st.page.position = PagePosition.First) (h4 : st.buffers = [])
    (h5 : st.svgs = []) :
    (paginateStep settings layout st e).pages = [] ∧
    (paginateStep settings layout st e).page.items = [] ∧
    (paginateStep settings layout st e).page.position = PagePosition.First ∧
    (paginateStep settings layout st e).buffers = [] ∧
    (paginateStep settings layout st e).svgs = [] := by
  cases e with
  | closeE id => exact ⟨h1, h2, h3, h4, h5⟩
  | openE id ctx =>
    cases ctx with
    | none => exact ⟨h1, h2, h3, h4, h5⟩
    | some c =>
      have hcd : create_display_item st.buffers st.svgs id c =
          (none, st.buffers, st.svgs) := by
        rw [h4, h5]
        cases hc : c.content with
        | block => simp [create_display_item, hc]
        | text => simp [create_display_item, hc, removeAssoc]
        | svgC sc => simp [create_display_item, hc, removeAssoc]
      simp only [paginateStep, hcd]
      exact ⟨h1, h2, h3, h4, h5⟩

theorem paginate_nocontent_fold (settings : RenderSettings) (layout : Nat → LayoutRect) :
    ∀ (edges : List BEdge) (st : PState), st.pages = [] → st.page.items = [] →
      st.page.position = PagePosition.First → st.buffers = [] → st.svgs = [] →
      (edges.foldl (paginateStep settings layout) st).pages = [] ∧
      (edges.foldl (paginateStep settings layout) st).page.items = [] ∧
      (edges.foldl (paginateStep settings layout) st).page.position = PagePosition.First ∧
      (edges.foldl (paginateStep settings layout) st).buffers = [] ∧
      (edges.foldl (paginateStep settings layout) st).svgs = [] := by
  intro edges
  induction edges with
  | nil => intro st h1 h2 h3 h4 h5; exact ⟨h1, h2, h3, h4, h5⟩
  | cons e rest ih =>
    intro st h1 h2 h3 h4 h5
    rw [List.foldl_cons]
    obtain ⟨g1, g2, g3, g4, g5⟩ := paginateStep_nocontent settings layout st e h1 h2 h3 h4 h5
    exact ih _ g1 g2 g3 g4 g5

/-- A pagination run over a builder state with no shaped text and no
svgs — a chapter whose render yields no content — emits exactly one
page, flagged both First and Last. -/
theorem paginate_nocontent (settings : RenderSettings) (layout : Nat → LayoutRect)
    (edges : List BEdge) :
    (paginate settings layout edges [] []).length = 1 ∧
    (paginate settings layout edges [] []).map (fun p => p.position) =
      [⟨true, true⟩] := by
  obtain ⟨g1, g2, g3, g4, g5⟩ := paginate_nocontent_fold settings layout edges
    ⟨0, 0, 0, [], ⟨.First, 0, ⟨0, 0⟩, []⟩, [], []⟩ rfl rfl rfl rfl rfl
  unfold paginate paginateFinish
  rw [if_pos (Or.inr g1), g1]
  refine ⟨rfl, ?_⟩
  simp only [List.nil_append, List.map_cons, List.map_nil]
  rw [g3]
  rfl

/-- C1 amended: every successful render emits a nonempty page list whose
element ranges are contiguous in document order with no gaps or overlaps
between consecutive pages, starting at element 0 (= the chapter range
start); exactly the first page carries First and exactly the last page
carries Last; and a render that yields no content — the built state
holds no shaped text buffer and no svg — emits exactly one page, flagged
both First and Last.  The full-cover half of the original claim fails:
the last page ends at the last context element id, which can be strictly
below chapter.elements.end = node_count (see the counterexample). -/
theorem render_resource_pages_shape (parseSvg : List SvgTok → Option SvgTree)
    (settings : RenderSettings) (layout : Nat → LayoutRect)
    (read : Except RenderError NodeTree) (ps : List PageContent)
    (h : render_resource parseSvg settings layout read = .ok ps) :
    ps ≠ [] ∧
    (ps.map (fun p => p.elements.start)).head? = some 0 ∧
    List.Chain' (fun a b : NRange => a.stop = b.start)
      (ps.map (fun p => p.elements)) ∧
    onlyHeadFirstP (ps.map (fun p => p.position)) = true ∧
    onlyLastLastP (ps.map (fun p => p.position)) = true ∧
    (∀ t walk s, read = Except.ok t → t.body = some walk →
      buildGo parseSvg settings walk BuildState.init = Except.ok s →
      s.buffers = [] → s.svgs = [] →
      ps.length = 1 ∧ ps.map (fun p => p.position) = [⟨true, true⟩]) := by
  unfold render_resource at h
  cases read with
  | error e => exact Except.noConfusion h
  | ok tree =>
    replace h : (match tree.body with
      | none => (Except.error .missingBody : Except RenderError (List PageContent))
      | some walk => do
          let s ← buildGo parseSvg settings walk .init
          pure (paginate settings layout (s.edges ++ s.stack.map BEdge.closeE)
            s.buffers s.svgs)) = .ok ps := h
    cases hb : tree.body with
    | none => simp only [hb] at h; exact Except.noConfusion h
    | some walk =>
      simp only [hb] at h
      cases hbg : buildGo parseSvg settings walk .init with
      | error e => simp only [hbg] at h; exact Except.noConfusion h
      | ok bs =>
        simp only [hbg] at h
        replace h := Except.ok.inj h
        subst h
        obtain ⟨s1, s2, s3, s4, s5⟩ :=
          paginate_pages_shape settings layout _ bs.buffers bs.svgs
        refine ⟨s1, s2, s3, s4, s5, ?_⟩
        intro t walk2 s hrt hbw hbg2 hbuf hsvg
        have heq : tree = t := Except.ok.inj hrt
        rw [← heq, hb] at hbw
        replace hbw := Option.some.inj hbw
        rw [← hbw, hbg] at hbg2
        replace hbg2 := Except.ok.inj hbg2
        rw [← hbg2] at hbuf hsvg
        rw [hbuf, hsvg]
        exact paginate_nocontent settings layout _

/-- Render settings and oracles used by the concrete render examples. -/
def sampleSettings : RenderSettings := ⟨600, 800, 1, 0, 0, 0, 0, 0, 16⟩

def zeroLayout : Nat → LayoutRect := fun _ => ⟨0, 0, 0, 0⟩

def noSvg : List SvgTok → Option SvgTree := fun _ => none

/-- The one-paragraph chapter: its parse has 7 arena nodes (root, error,
html, head, body, p, text), the body walk visits the p element (id 5)
with its text.  BookMeta::create therefore records elements: 0..7. -/
def c1chapter : NodeTree := ⟨7, some [.openEl 5 .p, .text "t", .closeEl 5 .p]⟩

/-- C1 counterexample: for the one-paragraph chapter the render emits a
single page covering elements 0..5 — its elements.end is the last
context element id 5, not the chapter range end 7, so the emitted pages
do not cover [chapter.elements.start, chapter.elements.end) and
last_page.elements.end ≠ chapter.elements.end. -/
theorem render_cover_gap_cex :
    BookMeta.create ["c"] (fun _ => some c1chapter) =
      .ok ⟨[⟨0, "c", ⟨0, 7⟩⟩]⟩ ∧
    render_resource noSvg sampleSettings zeroLayout (.ok c1chapter) =
      .ok [⟨⟨true, true⟩, 0, ⟨0, 5⟩, [⟨0, 0, 0, 0, .text [("t", .body)]⟩]⟩] ∧
    ([(⟨⟨true, true⟩, 0, ⟨0, 5⟩, [⟨0, 0, 0, 0, .text [("t", .body)]⟩]⟩ :
        PageContent)].getLast?.map (fun p => p.elements.stop) = some 5) ∧
    (⟨0, "c", ⟨0, 7⟩⟩ : BookSpineItem).elements.stop = 7 ∧ (5 : Nat) ≠ 7 := by
  refine ⟨rfl, by with_unfolding_all rfl, by decide, rfl, by decide⟩

/-- C1 witness for the amended theorem at the one-paragraph chapter
(shape of a content-bearing render) and at an empty chapter (a render
with no content emits exactly one page flagged both). -/
theorem render_resource_pages_shape_witness :
    (([⟨⟨true, true⟩, 0, ⟨0, 5⟩, [⟨0, 0, 0, 0, .text [("t", .body)]⟩]⟩] :
      List PageContent) ≠ [] ∧
    (([⟨⟨true, true⟩, 0, ⟨0, 5⟩, [⟨0, 0, 0, 0, .text [("t", .body)]⟩]⟩] :
      List PageContent).map (fun p => p.elements.start)).head? = some 0 ∧
    List.Chain' (fun a b : NRange => a.stop = b.start)
      (([⟨⟨true, true⟩, 0, ⟨0, 5⟩, [⟨0, 0, 0, 0, .text [("t", .body)]⟩]⟩] :
        List PageContent).map (fun p => p.elements)) ∧
    onlyHeadFirstP (([⟨⟨true, true⟩, 0, ⟨0, 5⟩, [⟨0, 0, 0, 0, .text [("t", .body)]⟩]⟩] :
      List PageContent).map (fun p => p.position)) = true ∧
    onlyLastLastP (([⟨⟨true, true⟩, 0, ⟨0, 5⟩, [⟨0, 0, 0, 0, .text [("t", .body)]⟩]⟩] :
      List PageContent).map (fun p => p.position)) = true) ∧
    (([(⟨⟨true, true⟩, 0, ⟨0, 0⟩, []⟩ : PageContent)]).length = 1 ∧
      ([(⟨⟨true, true⟩, 0, ⟨0, 0⟩, []⟩ : PageContent)]).map (fun p => p.position) =
        [⟨true, true⟩]) := by
  have W1 := render_resource_pages_shape noSvg sampleSettings zeroLayout
    (.ok c1chapter) [⟨⟨true, true⟩, 0, ⟨0, 5⟩, [⟨0, 0, 0, 0, .text [("t", .body)]⟩]⟩]
    (by with_unfolding_all rfl)
  have W2 := render_resource_pages_shape noSvg sampleSettings zeroLayout
    (.ok ⟨3, some []⟩) [⟨⟨true, true⟩, 0, ⟨0, 0⟩, []⟩] (by with_unfolding_all rfl)
  exact ⟨⟨W1.1, W1.2.1, W1.2.2.1, W1.2.2.2.1, W1.2.2.2.2.1⟩,
    W2.2.2.2.2.2 ⟨3, some []⟩ [] BuildState.init rfl rfl
      (by with_unfolding_all rfl) rfl rfl⟩

theorem findEntry_spine_eq (c : PageContentCache) (loc : Location)
    (e : PageCacheEntry) (h : c.findEntry loc = some e) : e.spine = loc.spine := by
  unfold PageContentCache.findEntry at h
  have hb := List.find?_some h
  simpa using hb

theorem entry_some_elim (c : PageContentCache) (loc : Location)
    (e : PageCacheEntry) (p : PageContent) (h : c.entry loc = some (e, p)) :
    c.findEntry loc = some e ∧ p ∈ e.pages := by
  unfold PageContentCache.entry at h
  cases hf : c.findEntry loc with
  | none => rw [hf] at h; simp at h
  | some e2 =>
    rw [hf] at h
    simp only [Option.bind_eq_bind, Option.some_bind] at h
    split at h
    · cases hh : e2.pages.head? with
      | none => rw [hh] at h; simp at h
      | some p2 =>
        rw [hh] at h
        simp only [Option.some_bind, pure, Option.some.injEq, Prod.mk.injEq] at h
        obtain ⟨rfl, rfl⟩ := h
        exact ⟨rfl, List.mem_of_mem_head? hh⟩
    · split at h
      · cases hh : e2.pages.getLast? with
        | none => rw [hh] at h; simp at h
        | some p2 =>
          rw [hh] at h
          simp only [Option.some_bind, pure, Option.some.injEq, Prod.mk.injEq] at h
          obtain ⟨rfl, rfl⟩ := h
          exact ⟨rfl, List.mem_of_mem_getLast? hh⟩
      · cases hh : e2.pages.find? (fun p => p.elements.containsE loc.element) with
        | none => rw [hh] at h; simp at h
        | some p2 =>
          rw [hh] at h
          simp only [Option.some_bind, pure, Option.some.injEq, Prod.mk.injEq] at h
          obtain ⟨rfl, rfl⟩ := h
          exact ⟨rfl, List.mem_of_find?_eq_some hh⟩

/-! ## C3: bounded cache with round-robin insertion -/

/-- C3: the page cache never holds more than CACHE_CHAPTERS = 5 entries
(its slot array has length 5, preserved by insert), reads never change
the state (entry/page are pure functions of it), and insertion is
strictly round-robin: after five further insertions the slot written by
the first one is written again, so the 6th insertion evicts exactly the
entry inserted 5 insertions earlier, whatever was read in between. -/
theorem cache_roundrobin_eviction (c : PageContentCache)
    (h5 : c.entries.length = CACHE_CHAPTERS)
    (it1 it2 it3 it4 it5 it6 : BookSpineItem)
    (p1 p2 p3 p4 p5 p6 : List PageContent) :
    c.numEntries ≤ CACHE_CHAPTERS ∧
    (c.insert it1 p1).entries.length = CACHE_CHAPTERS ∧
    (((((c.insert it1 p1).insert it2 p2).insert it3 p3).insert it4 p4).insert
        it5 p5).entries[c.index % CACHE_CHAPTERS]? =
      some (some ⟨it1.index, it1.elements, p1⟩) ∧
    ((((((c.insert it1 p1).insert it2 p2).insert it3 p3).insert it4 p4).insert
        it5 p5).insert it6 p6).entries[c.index % CACHE_CHAPTERS]? =
      some (some ⟨it6.index, it6.elements, p6⟩) := by
  have hcap : c.numEntries ≤ CACHE_CHAPTERS :=
    le_trans (List.reduceOption_length_le _) (le_of_eq h5)
  refine ⟨hcap, ?_, ?_, ?_⟩
  · simp [PageContentCache.insert, List.length_set, h5]
  · simp only [PageContentCache.insert, CACHE_CHAPTERS] at *
    rw [List.getElem?_set_ne (by omega), List.getElem?_set_ne (by omega),
      List.getElem?_set_ne (by omega), List.getElem?_set_ne (by omega),
      List.getElem?_set_self (by simp [List.length_set, h5]; omega)]
  · simp only [PageContentCache.insert, CACHE_CHAPTERS] at *
    have h6 : (c.index + 1 + 1 + 1 + 1 + 1) % 5 = c.index % 5 := by omega
    rw [h6, List.getElem?_set_self (by simp [List.length_set, h5]; omega)]

/-- C3 witness at the default cache and concrete items. -/
theorem cache_roundrobin_eviction_witness :
    PageContentCache.default.numEntries ≤ CACHE_CHAPTERS ∧
    (PageContentCache.default.insert ⟨1, "a", ⟨0, 3⟩⟩ []).entries.length = CACHE_CHAPTERS ∧
    (((((PageContentCache.default.insert ⟨1, "a", ⟨0, 3⟩⟩ []).insert ⟨2, "b", ⟨0, 3⟩⟩ []).insert
        ⟨3, "c", ⟨0, 3⟩⟩ []).insert ⟨4, "d", ⟨0, 3⟩⟩ []).insert
        ⟨5, "e", ⟨0, 3⟩⟩ []).entries[PageContentCache.default.index % CACHE_CHAPTERS]? =
      some (some ⟨1, ⟨0, 3⟩, []⟩) ∧
    ((((((PageContentCache.default.insert ⟨1, "a", ⟨0, 3⟩⟩ []).insert ⟨2, "b", ⟨0, 3⟩⟩ []).insert
        ⟨3, "c", ⟨0, 3⟩⟩ []).insert ⟨4, "d", ⟨0, 3⟩⟩ []).insert
        ⟨5, "e", ⟨0, 3⟩⟩ []).insert ⟨6, "f", ⟨0, 3⟩⟩ []).entries[PageContentCache.default.index % CACHE_CHAPTERS]? =
      some (some ⟨6, ⟨0, 3⟩, []⟩) :=
  cache_roundrobin_eviction PageContentCache.default (by decide)
    ⟨1, "a", ⟨0, 3⟩⟩ ⟨2, "b", ⟨0, 3⟩⟩ ⟨3, "c", ⟨0, 3⟩⟩ ⟨4, "d", ⟨0, 3⟩⟩
    ⟨5, "e", ⟨0, 3⟩⟩ ⟨6, "f", ⟨0, 3⟩⟩ [] [] [] [] [] []

/-! ## C10: navigation acts as identity off the cache and at book end -/

/-- C10: next_page and previous_page return the location unchanged when
the cache resolves no (entry, page) pair for it — no entry with the
matching spine index, or no page for the element index — and next_page
also returns it unchanged when the resolved page is flagged Last and
loc.spine is the final spine item. -/
theorem nav_identity_cases (c : PageContentCache) (bm : BookMeta) (loc : Location) :
    (c.entry loc = none →
      c.next_page bm loc = some loc ∧ c.previous_page bm loc = some loc) ∧
    (∀ e p, c.entry loc = some (e, p) → p.position.last = true →
      bm.spine.length ≤ loc.spine + 1 → c.next_page bm loc = some loc) := by
  constructor
  · intro h
    constructor
    · simp [PageContentCache.next_page, h]
    · simp [PageContentCache.previous_page, h]
  · intro e p h hl hlen
    have hsp : e.spine = loc.spine :=
      findEntry_spine_eq c loc e (entry_some_elim c loc e p h).1
    have hnone : bm.spine[e.spine + 1]? = none :=
      List.getElem?_eq_none_iff.mpr (by omega)
    simp [PageContentCache.next_page, h, hl, hnone]

/-- C10 witness: an empty cache leaves any location unchanged, and a
Last page of the final spine item leaves it unchanged. -/
theorem nav_identity_cases_witness :
    (PageContentCache.default.next_page ⟨[]⟩ ⟨0, 0⟩ = some ⟨0, 0⟩ ∧
      PageContentCache.default.previous_page ⟨[]⟩ ⟨0, 0⟩ = some ⟨0, 0⟩) ∧
    ((⟨1, [some ⟨0, ⟨0, 4⟩, [⟨⟨true, true⟩, 0, ⟨0, 3⟩, []⟩]⟩]⟩ :
        PageContentCache).next_page ⟨[⟨0, "a", ⟨0, 4⟩⟩]⟩ ⟨0, 0⟩ = some ⟨0, 0⟩) :=
  ⟨(nav_identity_cases PageContentCache.default ⟨[]⟩ ⟨0, 0⟩).1 (by decide),
    (nav_identity_cases (⟨1, [some ⟨0, ⟨0, 4⟩, [⟨⟨true, true⟩, 0, ⟨0, 3⟩, []⟩]⟩]⟩ :
        PageContentCache) ⟨[⟨0, "a", ⟨0, 4⟩⟩]⟩ ⟨0, 0⟩).2
      ⟨0, ⟨0, 4⟩, [⟨⟨true, true⟩, 0, ⟨0, 3⟩, []⟩]⟩ ⟨⟨true, true⟩, 0, ⟨0, 3⟩, []⟩
      (by decide) (by decide) (by decide)⟩

/-! ## C2: spine element ranges -/

theorem create_spine_aux (readTree : String → Option NodeTree) :
    ∀ (l : List String) (index : Nat) (out : List BookSpineItem),
      createSpineGo readTree index l = Except.ok out →
      ∀ it ∈ out, it.elements.start = 0 := by
  intro l
  induction l with
  | nil =>
    intro index out h it hit
    simp only [createSpineGo, Except.ok.injEq] at h
    subst h
    simp at hit
  | cons a l ih =>
    intro index out h it hit
    simp only [createSpineGo] at h
    cases ha : readTree a with
    | none => rw [ha] at h; simp at h
    | some tree =>
      rw [ha] at h
      cases hl : createSpineGo readTree (index + 1) l with
      | error e => rw [hl] at h; simp at h
      | ok rest =>
        rw [hl] at h
        simp only [Except.ok.injEq] at h
        subst h
        cases hit with
        | head => rfl
        | tail _ hmem => exact ih (index + 1) rest hl it hmem

/-- C2 amended: every spine item of an opened book owns the element
range 0..node_count of its own chapter parse; in particular every range
starts at 0, so ranges of distinct chapters are per-chapter coordinates,
not disjoint book-global intervals, and an element index identifies a
chapter only together with its spine index. -/
theorem spine_ranges_start_at_zero (spineIds : List String)
    (readTree : String → Option NodeTree) (bm : BookMeta)
    (h : BookMeta.create spineIds readTree = .ok bm) :
    ∀ it ∈ bm.spine, it.elements.start = 0 := by
  unfold BookMeta.create at h
  cases hm : createSpineGo readTree 0 spineIds with
  | error e => rw [hm] at h; simp at h
  | ok items =>
    rw [hm] at h
    simp only [Except.ok.injEq] at h
    subst h
    exact create_spine_aux readTree spineIds 0 items hm

/-- The two-chapter book used to refute C2 and exercise BookMeta.create:
chapter a parses to 7 arena nodes, chapter b to 6. -/
def c2read : String → Option NodeTree :=
  fun s => if s = "a" then some ⟨7, none⟩ else some ⟨6, none⟩

/-- C2 counterexample: BookMeta::create assigns the ranges 0..7 and 0..6
to the two distinct spine items of the same book; both ranges contain
element index 0, so the ranges are not disjoint and an element index
does not identify at most one chapter. -/
theorem spine_ranges_not_disjoint_cex :
    BookMeta.create ["a", "b"] c2read =
      .ok ⟨[⟨0, "a", ⟨0, 7⟩⟩, ⟨1, "b", ⟨0, 6⟩⟩]⟩ ∧
    (⟨0, "a", ⟨0, 7⟩⟩ : BookSpineItem) ≠ ⟨1, "b", ⟨0, 6⟩⟩ ∧
    NRange.containsE ⟨0, 7⟩ 0 = true ∧ NRange.containsE ⟨0, 6⟩ 0 = true := by
  refine ⟨rfl, by decide, by decide, by decide⟩

/-- C2 witness for the amended theorem at the same concrete book, read
off at both spine items. -/
theorem spine_ranges_start_at_zero_witness :
    (⟨0, "a", ⟨0, 7⟩⟩ : BookSpineItem).elements.start = 0 ∧
    (⟨1, "b", ⟨0, 6⟩⟩ : BookSpineItem).elements.start = 0 :=
  ⟨spine_ranges_start_at_zero ["a", "b"] c2read _ rfl ⟨0, "a", ⟨0, 7⟩⟩ (by decide),
    spine_ranges_start_at_zero ["a", "b"] c2read _ rfl ⟨1, "b", ⟨0, 6⟩⟩ (by decide)⟩

/-! ## C6: render failures leave the cache untouched but end the worker -/

/-- C6 amended: a failing chapter render inserts nothing into the page
cache — assure_cached propagates the error before any insert, so the
previously cached pages are untouched — and a cached chapter returns the
cache unchanged; but the worker loop applies the ? operator to that
result, so the worker thread terminates with the error instead of
continuing to serve later requests. -/
theorem render_failure_confinement (cache : PageContentCache)
    (item : BookSpineItem) (parseSvg : List SvgTok → Option SvgTree)
    (settings : RenderSettings) (layout : Nat → LayoutRect)
    (read : Except RenderError NodeTree) (current_loc : Location) :
    (cache.is_cached item = true →
      assure_cached cache item parseSvg settings layout read = .ok cache) ∧
    (∀ e, cache.is_cached item = false →
      render_resource parseSvg settings layout read = .error e →
      assure_cached cache item parseSvg settings layout read = .error e ∧
      workerRenderStep cache item parseSvg settings layout read current_loc = .error e) := by
  constructor
  · intro h
    simp [assure_cached, h]
  · intro e hnc hr
    have ha : assure_cached cache item parseSvg settings layout read = .error e := by
      simp only [assure_cached, hnc, Bool.false_eq_true, if_false]
      rw [hr]
      rfl
    exact ⟨ha, by simp [workerRenderStep, ha]⟩

/-- A cache that already holds chapter 0, and render settings used by
the concrete render examples. -/
def c6cache : PageContentCache :=
  ⟨1, [some ⟨0, ⟨0, 6⟩, [⟨⟨true, true⟩, 0, ⟨0, 4⟩, []⟩]⟩, none, none, none, none]⟩

/-- C6 counterexample: rendering chapter 1 of a book whose resource has
no body element fails with MissingBody; the cache keeps chapter 0
untouched (nothing was inserted), but the worker step returns the error
— the thread terminates — refuting that the worker continues to serve
future requests after a structural render failure. -/
theorem render_failure_worker_terminates_cex :
    assure_cached c6cache ⟨1, "b", ⟨0, 5⟩⟩ noSvg sampleSettings zeroLayout
      (.ok ⟨5, none⟩) = .error .missingBody ∧
    workerRenderStep c6cache ⟨1, "b", ⟨0, 5⟩⟩ noSvg sampleSettings zeroLayout
      (.ok ⟨5, none⟩) ⟨1, 0⟩ = .error .missingBody ∧
    (workerRenderStep c6cache ⟨1, "b", ⟨0, 5⟩⟩ noSvg sampleSettings zeroLayout
      (.ok ⟨5, none⟩) ⟨1, 0⟩).isOk = false := by
  refine ⟨rfl, rfl, rfl⟩

/-- C6 witness for the amended confinement theorem: a cached chapter
leaves the cache as is; a failing render propagates the error without an
insert and terminates the worker step. -/
theorem render_failure_confinement_witness :
    (assure_cached c6cache ⟨0, "a", ⟨0, 6⟩⟩ noSvg sampleSettings zeroLayout
      (.ok ⟨5, none⟩) = .ok c6cache) ∧
    (assure_cached c6cache ⟨1, "b", ⟨0, 5⟩⟩ noSvg sampleSettings zeroLayout
      (.ok ⟨5, none⟩) = .error .missingBody ∧
      workerRenderStep c6cache ⟨1, "b", ⟨0, 5⟩⟩ noSvg sampleSettings zeroLayout
        (.ok ⟨5, none⟩) ⟨1, 0⟩ = .error .missingBody) :=
  ⟨(render_failure_confinement c6cache ⟨0, "a", ⟨0, 6⟩⟩ noSvg sampleSettings
      zeroLayout (.ok ⟨5, none⟩) ⟨1, 0⟩).1 (by decide),
    (render_failure_confinement c6cache ⟨1, "b", ⟨0, 5⟩⟩ noSvg sampleSettings
      zeroLayout (.ok ⟨5, none⟩) ⟨1, 0⟩).2 .missingBody (by decide) rfl⟩


/-! ## C9: atlas image regeneration -/

theorem putPixel_dims (img : GAImage) (x y l a : Nat) :
    (putPixel img x y l a).width = img.width ∧
    (putPixel img x y l a).height = img.height := ⟨rfl, rfl⟩

theorem drawOutline_dims (o : Outline) (img : GAImage) (x0 y0 : Nat) :
    (drawOutline img x0 y0 o).width = img.width ∧
    (drawOutline img x0 y0 o).height = img.height := by
  unfold drawOutline
  induction o.pixels generalizing img with
  | nil => exact ⟨rfl, rfl⟩
  | cons px rest ih =>
    simpa [List.foldl_cons] using ih (putPixel img (x0 + px.1) (y0 + px.2.1) 0 px.2.2)

theorem redraw_fold_dims (l : List (GlyphIdent × AllocRect × Outline)) (img : GAImage) :
    ((l.foldl (fun im e => drawOutline im e.2.1.x.toNat e.2.1.y.toNat e.2.2) img).width
        = img.width) ∧
    ((l.foldl (fun im e => drawOutline im e.2.1.x.toNat e.2.1.y.toNat e.2.2) img).height
        = img.height) := by
  induction l generalizing img with
  | nil => exact ⟨rfl, rfl⟩
  | cons e rest ih =>
    have hd := drawOutline_dims e.2.2 img e.2.1.x.toNat e.2.1.y.toNat
    simp only [List.foldl_cons]
    rw [(ih (drawOutline img e.2.1.x.toNat e.2.1.y.toNat e.2.2)).1,
      (ih (drawOutline img e.2.1.x.toNat e.2.1.y.toNat e.2.2)).2] at *
    exact hd

/-- C9 amended: update_glyph_atlas returns the input unchanged exactly
when no glyph has ever been packed (the dirty flag starts false and
alloc_glyph sets it); once the flag is set it stays set — the receiver
is &self, nothing clears it — so every later call regenerates: the
returned image always has the current atlas dimensions, regardless of
whether any glyph was packed since the previous request. -/
theorem update_atlas_regenerates (s : SculpturePrinter) (img : GAImage) :
    (s.need_texture_refresh = false → s.update_glyph_atlas img = .ok img) ∧
    (s.need_texture_refresh = true →
      ∀ out, s.update_glyph_atlas img = .ok out →
        out.width = s.allocator.size.width.toNat ∧
        out.height = s.allocator.size.height.toNat) := by
  constructor
  · intro h
    simp [SculpturePrinter.update_glyph_atlas, h]
  · intro h out hout
    unfold SculpturePrinter.update_glyph_atlas at hout
    rw [h] at hout
    simp only [if_true] at hout
    by_cases hdim : img.width ≠ s.allocator.size.width.toNat ∨
        img.height ≠ s.allocator.size.height.toNat
    · rw [if_pos hdim] at hout
      set aw := s.allocator.size.width.toNat with haw
      set ah := s.allocator.size.height.toNat with hah
      have hlen : (resizeList img.data (2 * (aw * ah))).length = 2 * (aw * ah) :=
        resizeList_length _ _
      unfold imageFromRaw at hout
      rw [if_pos hlen] at hout
      have hX : (s.glyph_map.foldl
          (fun im e => drawOutline im e.2.1.x.toNat e.2.1.y.toNat e.2.2)
          (⟨aw, ah, resizeList img.data (2 * (aw * ah))⟩ : GAImage)) = out :=
        Except.ok.inj hout
      subst hX
      exact redraw_fold_dims s.glyph_map ⟨aw, ah, resizeList img.data (2 * (aw * ah))⟩
    · rw [if_neg hdim] at hout
      have hX : (s.glyph_map.foldl
          (fun im e => drawOutline im e.2.1.x.toNat e.2.1.y.toNat e.2.2) img) = out :=
        Except.ok.inj hout
      subst hX
      push_neg at hdim
      have := redraw_fold_dims s.glyph_map img
      exact ⟨this.1.trans hdim.1, this.2.trans hdim.2⟩

/-- Printer state as left by packing one glyph: the dirty flag is set
and can never be cleared again. -/
def c9printer : SculpturePrinter :=
  ⟨1, 1, ⟨⟨4, 4⟩, 0⟩, [(⟨0, 7, 12⟩, ⟨0, 0, 2, 2⟩, ⟨2, 2, []⟩)], true, ⟨1024, 1024⟩⟩

/-- C9 counterexample: with the dirty flag set by an earlier pack and no
glyph packed since the previous update request (the state is identical
between calls: update_glyph_atlas takes &self and cannot clear the
flag), a further request still regenerates: handed a 1x1 input image it
returns a 4x4 atlas-sized image, not the input unchanged. -/
theorem update_atlas_cex :
    c9printer.need_texture_refresh = true ∧
    c9printer.update_glyph_atlas ⟨1, 1, [0, 0]⟩ ≠ .ok ⟨1, 1, [0, 0]⟩ := by
  refine ⟨rfl, by decide⟩

/-- C9 witness for the amended theorem: a clean printer returns the
input unchanged; the dirty printer returns the atlas-sized image. -/
theorem update_atlas_regenerates_witness :
    ({ c9printer with need_texture_refresh := false }.update_glyph_atlas
      ⟨1, 1, [0, 0]⟩ = .ok ⟨1, 1, [0, 0]⟩) ∧
    ((⟨4, 4, List.replicate 32 0⟩ : GAImage).width = (4 : Int).toNat ∧
      (⟨4, 4, List.replicate 32 0⟩ : GAImage).height = (4 : Int).toNat) :=
  ⟨(update_atlas_regenerates { c9printer with need_texture_refresh := false }
      ⟨1, 1, [0, 0]⟩).1 rfl,
    (update_atlas_regenerates c9printer ⟨1, 1, [0, 0]⟩).2 rfl
      ⟨4, 4, List.replicate 32 0⟩ (by decide)⟩

/-! ## C4 and C5: page resolution and navigation on a cached chapter

The cache entries produced by the renderer hold page lists whose element
ranges form a chain starting at the chapter range start (C1); the
resolution and navigation lemmas below are proved for any entry whose
page list is such a chain of nonempty ranges. -/

/-- The page ranges are adjacent nonempty ranges starting at a. -/
def pagesChainedFrom (a : Nat) : List PageContent → Bool
  | [] => true
  | p :: ps =>
    (p.elements.start == a) && decide (a < p.elements.stop) &&
      pagesChainedFrom p.elements.stop ps

/-- Stop of the last page range, a if there is none. -/
def pagesStop (a : Nat) : List PageContent → Nat
  | [] => a
  | p :: ps => pagesStop p.elements.stop ps

theorem pagesChainedFrom_cons (a : Nat) (p : PageContent) (ps : List PageContent)
    (h : pagesChainedFrom a (p :: ps) = true) :
    p.elements.start = a ∧ a < p.elements.stop ∧
      pagesChainedFrom p.elements.stop ps = true := by
  simp only [pagesChainedFrom, Bool.and_eq_true, beq_iff_eq, decide_eq_true_eq] at h
  exact ⟨h.1.1, h.1.2, h.2⟩

theorem chained_le_stop (ps : List PageContent) :
    ∀ a, pagesChainedFrom a ps = true → a ≤ pagesStop a ps := by
  induction ps with
  | nil => intro a _; exact le_refl a
  | cons p ps ih =>
    intro a h
    obtain ⟨_, h2, h3⟩ := pagesChainedFrom_cons a p ps h
    exact le_trans (le_of_lt h2) (ih p.elements.stop h3)

theorem chained_mem_start (ps : List PageContent) :
    ∀ a, pagesChainedFrom a ps = true → ∀ p ∈ ps, a ≤ p.elements.start := by
  induction ps with
  | nil => intro a _ p hp; exact absurd hp (List.not_mem_nil p)
  | cons q ps ih =>
    intro a h p hp
    obtain ⟨h1, h2, h3⟩ := pagesChainedFrom_cons a q ps h
    rcases List.mem_cons.mp hp with rfl | hp
    · exact le_of_eq h1.symm
    · exact le_trans (le_of_lt h2) (ih q.elements.stop h3 p hp)

theorem chained_mem_stop (ps : List PageContent) :
    ∀ a, pagesChainedFrom a ps = true →
      ∀ p ∈ ps, p.elements.stop ≤ pagesStop a ps := by
  induction ps with
  | nil => intro a _ p hp; exact absurd hp (List.not_mem_nil p)
  | cons q ps ih =>
    intro a h p hp
    obtain ⟨_, _, h3⟩ := pagesChainedFrom_cons a q ps h
    rcases List.mem_cons.mp hp with rfl | hp
    · exact chained_le_stop ps p.elements.stop h3
    · exact ih q.elements.stop h3 p hp

theorem chained_mem_nonempty (ps : List PageContent) :
    ∀ a, pagesChainedFrom a ps = true →
      ∀ p ∈ ps, p.elements.start < p.elements.stop := by
  induction ps with
  | nil => intro a _ p hp; exact absurd hp (List.not_mem_nil p)
  | cons q ps ih =>
    intro a h p hp
    obtain ⟨h1, h2, h3⟩ := pagesChainedFrom_cons a q ps h
    rcases List.mem_cons.mp hp with rfl | hp
    · exact h1 ▸ h2
    · exact ih q.elements.stop h3 p hp

theorem find_contains_eq (x : Nat) (ps : List PageContent) :
    ∀ a, pagesChainedFrom a ps = true → ∀ p ∈ ps, p.elements.containsE x = true →
      ps.find? (fun r => r.elements.containsE x) = some p := by
  induction ps with
  | nil => intro a _ p hp; exact absurd hp (List.not_mem_nil p)
  | cons q ps ih =>
    intro a h p hp hpx
    obtain ⟨_, _, h3⟩ := pagesChainedFrom_cons a q ps h
    rcases List.mem_cons.mp hp with rfl | hp
    · exact List.find?_cons_of_pos _ hpx
    · have hqs : q.elements.stop ≤ p.elements.start :=
        chained_mem_start ps q.elements.stop h3 p hp
      have hpsx : p.elements.start ≤ x := by
        simp only [NRange.containsE, Bool.and_eq_true, decide_eq_true_eq] at hpx
        exact hpx.1
      have hq : q.elements.containsE x = false := by
        simp only [NRange.containsE, Bool.and_eq_false_iff, decide_eq_false_iff_not]
        right; omega
      rw [List.find?_cons_of_neg _ (by simp [hq])]
      exact ih q.elements.stop h3 p hp hpx

theorem find_contains_exists (x : Nat) (ps : List PageContent) :
    ∀ a, pagesChainedFrom a ps = true → a ≤ x → x < pagesStop a ps →
      ∃ p, ps.find? (fun r => r.elements.containsE x) = some p ∧
        p.elements.containsE x = true := by
  induction ps with
  | nil => intro a _ hax hx; exact absurd hx (by simp [pagesStop]; omega)
  | cons q ps ih =>
    intro a h hax hx
    obtain ⟨h1, _, h3⟩ := pagesChainedFrom_cons a q ps h
    by_cases hlt : x < q.elements.stop
    · have hq : q.elements.containsE x = true := by
        simp only [NRange.containsE, Bool.and_eq_true, decide_eq_true_eq]
        omega
      exact ⟨q, List.find?_cons_of_pos _ hq, hq⟩
    · have hq : q.elements.containsE x = false := by
        simp only [NRange.containsE, Bool.and_eq_false_iff, decide_eq_false_iff_not]
        right; omega
      rw [List.find?_cons_of_neg _ (by simp [hq])]
      exact ih q.elements.stop h3 (by omega) hx

theorem find_contains_none (x : Nat) (ps : List PageContent) :
    ∀ a, pagesChainedFrom a ps = true → pagesStop a ps ≤ x →
      ps.find? (fun r => r.elements.containsE x) = none := by
  induction ps with
  | nil => intro a _ _; rfl
  | cons q ps ih =>
    intro a h hx
    obtain ⟨_, _, h3⟩ := pagesChainedFrom_cons a q ps h
    have hqs : q.elements.stop ≤ pagesStop q.elements.stop ps :=
      chained_le_stop ps q.elements.stop h3
    have hx2 : pagesStop q.elements.stop ps ≤ x := hx
    have hq : q.elements.containsE x = false := by
      simp only [NRange.containsE, Bool.and_eq_false_iff, decide_eq_false_iff_not]
      right; omega
    rw [List.find?_cons_of_neg _ (by simp [hq])]
    exact ih q.elements.stop h3 hx2

theorem find_succ (ps : List PageContent) :
    ∀ (a i : Nat) (p q : PageContent), pagesChainedFrom a ps = true →
      ps[i]? = some p → ps[i + 1]? = some q →
      ps.find? (fun r => p.elements.start < r.elements.start) = some q := by
  induction ps with
  | nil => intro a i p q _ hp _; exact absurd hp (by simp)
  | cons h t ih =>
    intro a i p q hch hp hq
    obtain ⟨h1, h2, h3⟩ := pagesChainedFrom_cons a h t hch
    cases i with
    | zero =>
      have hp0 : h = p := by simpa using hp
      rw [List.getElem?_cons_succ] at hq
      cases t with
      | nil => exact absurd hq (by simp)
      | cons q0 t2 =>
        have hq0 : q0 = q := by simpa using hq
        obtain ⟨hq1, _, _⟩ := pagesChainedFrom_cons h.elements.stop q0 t2 h3
        rw [List.find?_cons_of_neg _ (by simp [hp0]),
          List.find?_cons_of_pos _ (by
            simp only [decide_eq_true_eq]; rw [← hp0]; omega)]
        exact congrArg some hq0
    | succ j =>
      rw [List.getElem?_cons_succ] at hp hq
      have hmem : p ∈ t := by
        obtain ⟨hl, he⟩ := List.getElem?_eq_some.mp hp
        exact he ▸ List.getElem_mem hl
      have hle : h.elements.stop ≤ p.elements.start :=
        chained_mem_start t h.elements.stop h3 p hmem
      rw [List.find?_cons_of_neg _ (by simp only [decide_eq_true_eq]; omega)]
      exact ih h.elements.stop j p q h3 hp hq

theorem rfind_pred (ps : List PageContent) :
    ∀ (a i : Nat) (p q : PageContent), pagesChainedFrom a ps = true →
      ps[i]? = some p → ps[i + 1]? = some q →
      ps.reverse.find? (fun r => r.elements.start < q.elements.start) = some p := by
  induction ps with
  | nil => intro a i p q _ hp _; exact absurd hp (by simp)
  | cons h t ih =>
    intro a i p q hch hp hq
    obtain ⟨h1, h2, h3⟩ := pagesChainedFrom_cons a h t hch
    rw [List.reverse_cons, List.find?_append]
    cases i with
    | zero =>
      have hp0 : h = p := by simpa using hp
      rw [List.getElem?_cons_succ] at hq
      cases t with
      | nil => exact absurd hq (by simp)
      | cons q0 t2 =>
        have hq0 : q0 = q := by simpa using hq
        obtain ⟨hq1, _, _⟩ := pagesChainedFrom_cons h.elements.stop q0 t2 h3
        have hqs : q.elements.start = h.elements.stop := hq0 ▸ hq1
        have hnone : (q0 :: t2).reverse.find?
            (fun r => r.elements.start < q.elements.start) = none := by
          refine List.find?_eq_none.mpr ?_
          intro r hr
          have hrmem : r ∈ q0 :: t2 := List.mem_reverse.mp hr
          have hle : h.elements.stop ≤ r.elements.start :=
            chained_mem_start (q0 :: t2) h.elements.stop h3 r hrmem
          simp only [decide_eq_true_eq, not_lt]
          omega
        rw [hnone, List.find?_cons_of_pos _ (by
          simp only [decide_eq_true_eq]; omega)]
        exact congrArg some hp0
    | succ j =>
      rw [List.getElem?_cons_succ] at hp hq
      rw [ih h.elements.stop j p q h3 hp hq]
      rfl

theorem entry_start_branch (c : PageContentCache) (loc : Location)
    (e : PageCacheEntry) (hf : c.findEntry loc = some e)
    (heq : loc.element = e.elements.start) :
    c.entry loc = e.pages.head?.bind (fun p => some (e, p)) := by
  unfold PageContentCache.entry
  rw [hf]
  simp only [Option.bind_eq_bind, Option.some_bind]
  rw [if_pos heq]
  rfl

theorem entry_last_branch (c : PageContentCache) (loc : Location)
    (e : PageCacheEntry) (hf : c.findEntry loc = some e)
    (hne : loc.element ≠ e.elements.start) (hge : e.elements.stop ≤ loc.element) :
    c.entry loc = e.pages.getLast?.bind (fun p => some (e, p)) := by
  unfold PageContentCache.entry
  rw [hf]
  simp only [Option.bind_eq_bind, Option.some_bind]
  rw [if_neg hne, if_pos hge]
  rfl

theorem entry_contains_branch (c : PageContentCache) (loc : Location)
    (e : PageCacheEntry) (hf : c.findEntry loc = some e)
    (hne : loc.element ≠ e.elements.start) (hlt : loc.element < e.elements.stop) :
    c.entry loc = (e.pages.find? (fun p => p.elements.containsE loc.element)).bind
      (fun p => some (e, p)) := by
  unfold PageContentCache.entry
  rw [hf]
  simp only [Option.bind_eq_bind, Option.some_bind]
  rw [if_neg hne, if_neg (not_le.mpr hlt)]
  rfl

theorem headFirst_of_getElem_zero (ps : List PageContent) (p : PageContent)
    (h0 : ps[0]? = some p)
    (hhf : onlyHeadFirstP (ps.map (fun x => x.position)) = true) :
    p.position.first = true := by
  cases ps with
  | nil => exact absurd h0 (by simp)
  | cons h t =>
    have hp0 : h = p := by simpa using h0
    simp only [List.map_cons, onlyHeadFirstP, Bool.and_eq_true] at hhf
    exact hp0 ▸ hhf.1

theorem notFirst_of_getElem_succ (ps : List PageContent) (j : Nat) (q : PageContent)
    (hq : ps[j + 1]? = some q)
    (hhf : onlyHeadFirstP (ps.map (fun x => x.position)) = true) :
    q.position.first = false := by
  cases ps with
  | nil => exact absurd hq (by simp)
  | cons h t =>
    rw [List.getElem?_cons_succ] at hq
    have hqmem : q ∈ t := by
      obtain ⟨hl, he⟩ := List.getElem?_eq_some.mp hq
      exact he ▸ List.getElem_mem hl
    simp only [List.map_cons, onlyHeadFirstP, Bool.and_eq_true, List.all_eq_true] at hhf
    have := hhf.2 q.position (List.mem_map_of_mem _ hqmem)
    simpa using this

theorem chained_tail_start (ps : List PageContent) (a j : Nat) (p : PageContent)
    (hch : pagesChainedFrom a ps = true) (hp : ps[j + 1]? = some p) :
    a < p.elements.start := by
  cases ps with
  | nil => exact absurd hp (by simp)
  | cons h t =>
    obtain ⟨h1, h2, h3⟩ := pagesChainedFrom_cons a h t hch
    rw [List.getElem?_cons_succ] at hp
    have hpmem : p ∈ t := by
      obtain ⟨hl, he⟩ := List.getElem?_eq_some.mp hp
      exact he ▸ List.getElem_mem hl
    have := chained_mem_start t h.elements.stop h3 p hpmem
    omega

/-- C4 amended: for a cached chapter whose page ranges chain inside the
chapter range, lookup resolves by the chapter range, not by the first
and last page starts: element = chapter range start gives the first
page; element at or beyond the chapter range stop gives the last page;
an element strictly inside the chapter range resolves to the page whose
range contains it — and to no page at all when it falls past the last
page's stop but before the chapter range stop (the claim's at-or-after
last-page-start clause fails there, see the counterexample). -/
theorem page_lookup_resolution (c : PageContentCache) (loc : Location)
    (e : PageCacheEntry) (hf : c.findEntry loc = some e)
    (hch : pagesChainedFrom e.elements.start e.pages = true)
    (hst : pagesStop e.elements.start e.pages ≤ e.elements.stop) :
    (loc.element = e.elements.start → c.page loc = e.pages.head?) ∧
    (loc.element ≠ e.elements.start → e.elements.stop ≤ loc.element →
      c.page loc = e.pages.getLast?) ∧
    (e.elements.start < loc.element →
      loc.element < pagesStop e.elements.start e.pages →
      ∃ p, c.page loc = some p ∧ p.elements.containsE loc.element = true) ∧
    (loc.element ≠ e.elements.start →
      pagesStop e.elements.start e.pages ≤ loc.element →
      loc.element < e.elements.stop → c.page loc = none) := by
  refine ⟨?_, ?_, ?_, ?_⟩
  · intro heq
    simp only [PageContentCache.page, entry_start_branch c loc e hf heq]
    cases e.pages.head? <;> rfl
  · intro hne hge
    simp only [PageContentCache.page, entry_last_branch c loc e hf hne hge]
    cases e.pages.getLast? <;> rfl
  · intro hgt hlt
    obtain ⟨p, hfind, hcont⟩ := find_contains_exists loc.element e.pages
      e.elements.start hch (le_of_lt hgt) hlt
    refine ⟨p, ?_, hcont⟩
    simp only [PageContentCache.page, entry_contains_branch c loc e hf
      (by omega) (by omega), hfind]
    rfl
  · intro hne hge hlt
    simp only [PageContentCache.page, entry_contains_branch c loc e hf hne hlt,
      find_contains_none loc.element e.pages e.elements.start hch hge]
    rfl

/-- The cached chapter of the C1 counterexample: chapter range 0..7, one
page covering 0..5. -/
def c4entry : PageCacheEntry := ⟨0, ⟨0, 7⟩, [⟨⟨true, true⟩, 0, ⟨0, 5⟩, []⟩]⟩

def c4cache : PageContentCache := ⟨1, [some c4entry, none, none, none, none]⟩

/-- C4 counterexample: element 6 of the cached chapter is at or after
the last page's start (0), yet lookup resolves to no page at all — 6 is
below the chapter range stop 7, so the containing-page branch runs and
no page range contains 6. -/
theorem page_lookup_tail_gap_cex :
    c4cache.findEntry ⟨0, 6⟩ = some c4entry ∧
    c4entry.pages.getLast? = some ⟨⟨true, true⟩, 0, ⟨0, 5⟩, []⟩ ∧
    (⟨0, 5⟩ : NRange).start ≤ (⟨0, 6⟩ : Location).element ∧
    c4cache.page ⟨0, 6⟩ = none := by decide

/-- C4 witness for the amended theorem at the concrete cached chapter. -/
theorem page_lookup_resolution_witness :
    ((⟨0, 0⟩ : Location).element = c4entry.elements.start →
      c4cache.page ⟨0, 0⟩ = c4entry.pages.head?) ∧
    ((⟨0, 0⟩ : Location).element ≠ c4entry.elements.start →
      c4entry.elements.stop ≤ (⟨0, 0⟩ : Location).element →
      c4cache.page ⟨0, 0⟩ = c4entry.pages.getLast?) ∧
    (c4entry.elements.start < (⟨0, 0⟩ : Location).element →
      (⟨0, 0⟩ : Location).element < pagesStop c4entry.elements.start c4entry.pages →
      ∃ p, c4cache.page ⟨0, 0⟩ = some p ∧
        p.elements.containsE (⟨0, 0⟩ : Location).element = true) ∧
    ((⟨0, 0⟩ : Location).element ≠ c4entry.elements.start →
      pagesStop c4entry.elements.start c4entry.pages ≤ (⟨0, 0⟩ : Location).element →
      (⟨0, 0⟩ : Location).element < c4entry.elements.stop →
      c4cache.page ⟨0, 0⟩ = none) :=
  page_lookup_resolution c4cache ⟨0, 0⟩ c4entry (by decide) (by decide) (by decide)

/-- C5 amended: next_page then previous_page returns to the original
location for a non-boundary location that sits on its page's start.
For a cached chapter whose page ranges chain inside the chapter range
and whose First flag sits only on the head page, a location at the
start of a page p that is neither First- nor Last-flagged steps forward
to the start of the following page q, and stepping back from there
lands on the start of p — the original location.  A non-boundary
location elsewhere inside p comes back to p's start instead of itself
(see the counterexample), because both navigation functions normalize
to page starts. -/
theorem nav_round_trip_aligned (c : PageContentCache) (bm : BookMeta)
    (loc : Location) (e : PageCacheEntry) (j : Nat) (p q : PageContent)
    (hf : c.findEntry loc = some e)
    (hch : pagesChainedFrom e.elements.start e.pages = true)
    (hst : pagesStop e.elements.start e.pages ≤ e.elements.stop)
    (hhf : onlyHeadFirstP (e.pages.map (fun x => x.position)) = true)
    (hp : e.pages[j + 1]? = some p) (hq : e.pages[j + 1 + 1]? = some q)
    (hpl : p.position.last = false)
    (halign : loc.element = p.elements.start) :
    c.next_page bm loc = some ⟨e.spine, q.elements.start⟩ ∧
    c.previous_page bm ⟨e.spine, q.elements.start⟩ = some loc := by
  have hpmem : p ∈ e.pages := by
    obtain ⟨hl, he⟩ := List.getElem?_eq_some.mp hp
    exact he ▸ List.getElem_mem hl
  have hqmem : q ∈ e.pages := by
    obtain ⟨hl, he⟩ := List.getElem?_eq_some.mp hq
    exact he ▸ List.getElem_mem hl
  have hpa : e.elements.start < p.elements.start :=
    chained_tail_start e.pages e.elements.start j p hch hp
  have hqa : e.elements.start < q.elements.start :=
    chained_tail_start e.pages e.elements.start (j + 1) q hch hq
  have hpne : p.elements.start < p.elements.stop :=
    chained_mem_nonempty e.pages e.elements.start hch p hpmem
  have hqne : q.elements.start < q.elements.stop :=
    chained_mem_nonempty e.pages e.elements.start hch q hqmem
  have hpstop : p.elements.stop ≤ pagesStop e.elements.start e.pages :=
    chained_mem_stop e.pages e.elements.start hch p hpmem
  have hqstop : q.elements.stop ≤ pagesStop e.elements.start e.pages :=
    chained_mem_stop e.pages e.elements.start hch q hqmem
  have hqf : q.position.first = false :=
    notFirst_of_getElem_succ e.pages (j + 1) q hq hhf
  have hsp : e.spine = loc.spine := findEntry_spine_eq c loc e hf
  have hent : c.entry loc = some (e, p) := by
    rw [entry_contains_branch c loc e hf (by omega) (by omega), halign,
      find_contains_eq p.elements.start e.pages e.elements.start hch p hpmem
        (by simp only [NRange.containsE, Bool.and_eq_true, decide_eq_true_eq]; omega)]
    rfl
  have hprev : ∀ loc2 : Location, loc2.spine = e.spine →
      loc2.element = q.elements.start →
      c.previous_page bm loc2 = some loc := by
    intro loc2 hs2 he2
    have hf2 : c.findEntry loc2 = some e := by
      unfold PageContentCache.findEntry at hf ⊢
      rw [hs2, hsp]
      exact hf
    have hent2 : c.entry loc2 = some (e, q) := by
      rw [entry_contains_branch c loc2 e hf2 (by omega) (by omega), he2,
        find_contains_eq q.elements.start e.pages e.elements.start hch q hqmem
          (by simp only [NRange.containsE, Bool.and_eq_true, decide_eq_true_eq]; omega)]
      rfl
    simp only [PageContentCache.previous_page, hent2]
    rw [if_neg (by simp [hqf]),
      rfind_pred e.pages e.elements.start (j + 1) p q hch hp hq]
    show some ⟨e.spine, p.elements.start⟩ = some loc
    rw [hsp, ← halign]
  constructor
  · simp only [PageContentCache.next_page, hent]
    rw [if_neg (by simp [hpl]),
      find_succ e.pages e.elements.start (j + 1) p q hch hp hq]
    rfl
  · exact hprev ⟨e.spine, q.elements.start⟩ rfl rfl

/-- A cached chapter with three chained pages 0..2, 2..5, 5..8 inside
chapter range 0..9; flags only at the ends. -/
def c5entry : PageCacheEntry :=
  ⟨0, ⟨0, 9⟩, [⟨⟨true, false⟩, 0, ⟨0, 2⟩, []⟩, ⟨⟨false, false⟩, 1, ⟨2, 5⟩, []⟩,
    ⟨⟨false, true⟩, 2, ⟨5, 8⟩, []⟩]⟩

def c5cache : PageContentCache := ⟨1, [some c5entry, none, none, none, none]⟩

def c5meta : BookMeta := ⟨[⟨0, "c", ⟨0, 9⟩⟩]⟩

/-- C5 witness: from the start of the middle page (element 2), next_page
reaches element 5 and previous_page comes back to element 2. -/
theorem nav_round_trip_aligned_witness :
    c5cache.next_page c5meta ⟨0, 2⟩ =
      some ⟨c5entry.spine, (⟨⟨false, true⟩, 2, ⟨5, 8⟩, []⟩ :
        PageContent).elements.start⟩ ∧
    c5cache.previous_page c5meta ⟨c5entry.spine, (⟨⟨false, true⟩, 2, ⟨5, 8⟩, []⟩ :
        PageContent).elements.start⟩ = some ⟨0, 2⟩ :=
  nav_round_trip_aligned c5cache c5meta ⟨0, 2⟩ c5entry 0
    ⟨⟨false, false⟩, 1, ⟨2, 5⟩, []⟩ ⟨⟨false, true⟩, 2, ⟨5, 8⟩, []⟩
    (by decide) (by decide) (by decide) (by decide) (by decide) (by decide)
    (by decide) (by decide)

/-- C5 counterexample: element 3 of the cached chapter resolves to the
middle page — neither First nor Last, a non-boundary location — but
next_page goes to element 5 and previous_page from there lands on
element 2, the middle page's start, not back on element 3. -/
theorem nav_round_trip_cex :
    c5cache.entry ⟨0, 3⟩ = some (c5entry, ⟨⟨false, false⟩, 1, ⟨2, 5⟩, []⟩) ∧
    (⟨⟨false, false⟩, 1, ⟨2, 5⟩, []⟩ : PageContent).position.first = false ∧
    (⟨⟨false, false⟩, 1, ⟨2, 5⟩, []⟩ : PageContent).position.last = false ∧
    c5cache.next_page c5meta ⟨0, 3⟩ = some ⟨0, 5⟩ ∧
    c5cache.previous_page c5meta ⟨0, 5⟩ = some ⟨0, 2⟩ ∧
    (⟨0, 2⟩ : Location) ≠ ⟨0, 3⟩ := by decide

end Scribble
